import Mathlib

/-!
Conway's Game of Life on a 20x10 torus (`game-of-life.c`)

A shallow embedding of `src/game-of-life.c` and theorems about it.

Modelling conventions
* A C `int` is a Lean `Int`.  Every C arithmetic operation on an `int` whose
  operands are not already known to be small is followed by `wrap_int`, the
  two's-complement reduction to 32 bits, so that `x++` at `INT_MAX` is covered.
* A board (`cell_t board[BOARD_SIZE]`, passed as `cell_t*`) is a `List cell_t`.
  A read or a write outside the list is a failure (`none`): the C program would
  access memory outside the array there.
* `dir_t` is the underlying integer of the C enumeration, because the source
  casts a loop counter to it; the `switch` keeps its `default` branch.
-/

namespace GameOfLife

/-! ## Constants and macros -/

/-- The macro `#define BOARD_WIDTH 20`. -/
def BOARD_WIDTH : Int := 20

/-- The macro `#define BOARD_HEIGHT 10`. -/
def BOARD_HEIGHT : Int := 10

/-- The macro `#define BOARD_SIZE (BOARD_WIDTH * BOARD_HEIGHT)`. -/
def BOARD_SIZE : Int := BOARD_WIDTH * BOARD_HEIGHT

/-- Reduction of a mathematical integer to the range of a 32-bit C `int`. -/
def wrap_int (z : Int) : Int := (z + 2147483648) % 4294967296 - 2147483648

/-- The macro `#define coord_to_idx(x, y) ((y * BOARD_WIDTH) + x)`, in `int` arithmetic. -/
def coord_to_idx (x y : Int) : Int := wrap_int (wrap_int (y * BOARD_WIDTH) + x)

/-- The macro `wrap_coords(x, y)`: two assignments, returned here as the new pair. -/
def wrap_coords (x y : Int) : Int × Int :=
  ( if x < 0 then BOARD_WIDTH - 1 else if x > BOARD_WIDTH - 1 then 0 else x,
    if y < 0 then BOARD_HEIGHT - 1 else if y > BOARD_HEIGHT - 1 then 0 else y )

/-- The cell state, `typedef enum { CELL_DEAD, CELL_ALIVE } cell_t;`. -/
inductive cell_t where
  | CELL_DEAD
  | CELL_ALIVE
  deriving DecidableEq, Repr

open cell_t

/-- The macro `#define printable_state(state) ((state == CELL_ALIVE) ? 'o' : ' ')`. -/
def printable_state (state : cell_t) : Char := if state = CELL_ALIVE then 'o' else ' '

/-- The underlying integer of `typedef enum { DIR_NORTH, ... } dir_t;`. -/
abbrev dir_t := Nat

def DIR_NORTH : dir_t := 0
def DIR_SOUTH : dir_t := 1
def DIR_WEST : dir_t := 2
def DIR_EAST : dir_t := 3
def DIR_NORTHWEST : dir_t := 4
def DIR_NORTHEAST : dir_t := 5
def DIR_SOUTHWEST : dir_t := 6
def DIR_SOUTHEAST : dir_t := 7

/-- A board: the cells behind a `cell_t*`. -/
abbrev Board := List cell_t

/-- The array read `board[i]` for a C integer `i`. -/
def read (board : Board) (i : Int) : Option cell_t :=
  if 0 ≤ i then board[i.toNat]? else none

/-- The array write `board[i] = v` for a C integer `i`. -/
def write (board : Board) (i : Int) (v : cell_t) : Option Board :=
  if 0 ≤ i ∧ i.toNat < board.length then some (board.set i.toNat v) else none

/-! ## The functions of the program -/

/-- The `switch(direction)` of `check_neighbor`: the moved coordinates. -/
def move (x y : Int) (direction : dir_t) : Int × Int :=
  match direction with
  | 0 => (x, wrap_int (y - 1)) -- DIR_NORTH: y--
  | 1 => (x, wrap_int (y + 1)) -- DIR_SOUTH: y++
  | 2 => (wrap_int (x - 1), y) -- DIR_WEST: x--
  | 3 => (wrap_int (x + 1), y) -- DIR_EAST: x++
  | 4 => (wrap_int (x - 1), wrap_int (y - 1)) -- DIR_NORTHWEST: x--; y--
  | 5 => (wrap_int (x + 1), wrap_int (y - 1)) -- DIR_NORTHEAST: x++; y--
  | 6 => (wrap_int (x - 1), wrap_int (y + 1)) -- DIR_SOUTHWEST: x--; y++
  | 7 => (wrap_int (x + 1), wrap_int (y + 1)) -- DIR_SOUTHEAST: x++; y++
  | _ => (x, y) -- default: break

/-- The index `coord_to_idx(x, y)` that `check_neighbor` reads, after the
`switch` and `wrap_coords`. -/
def check_neighbor_index (x y : Int) (direction : dir_t) : Int :=
  let p := move x y direction
  let q := wrap_coords p.1 p.2
  coord_to_idx q.1 q.2

/-- The function `cell_t check_neighbor(const cell_t* board, int x, int y, dir_t direction)`. -/
def check_neighbor (board : Board) (x y : Int) (direction : dir_t) : Option cell_t :=
  read board (check_neighbor_index x y direction)

/-- The function `unsigned get_living_neighbors(const cell_t* board, int x, int y)`:
the loop over the directions `0 .. 7`. -/
def get_living_neighbors (board : Board) (x y : Int) : Option Nat :=
  (List.range 8).foldlM
    (fun n_elements i =>
      (check_neighbor board x y i).map
        (fun c => if c = CELL_ALIVE then n_elements + 1 else n_elements))
    0

/-- The function `void apply_rules(cell_t* current, const cell_t* old, int x, int y)`:
the new contents of `current`. -/
def apply_rules (current old : Board) (x y : Int) : Option Board :=
  (get_living_neighbors old x y).bind fun neighbors =>
    let index := coord_to_idx x y
    (read current index).bind fun c =>
      if c = CELL_ALIVE then
        if neighbors < 2 ∨ neighbors > 3 then write current index CELL_DEAD
        else some current
      else if neighbors = 3 then write current index CELL_ALIVE
      else some current

/-- The table `int positions[]` of `add_glider`. -/
def positions : List Int := [1, 0, 2, 1, 0, 2, 1, 2, 2, 2]

/-- The index `coord_to_idx(xp, yp)` written by iteration `i` of `add_glider`. -/
def add_glider_index (x y : Int) (i : Nat) : Int :=
  let xp := wrap_int (x + positions.getD (i * 2) 0)
  let yp := wrap_int (y + positions.getD (i * 2 + 1) 0)
  let q := wrap_coords xp yp
  coord_to_idx q.1 q.2

/-- The function `void add_glider(cell_t* board, int x, int y)`: the new contents of
`board`. -/
def add_glider (board : Board) (x y : Int) : Option Board :=
  (List.range 5).foldlM
    (fun b i => write b (add_glider_index x y i) CELL_ALIVE)
    board

/-- The cells of `main` after `memset(cur_board, 0, ...)`. -/
def empty_board : Board := List.replicate 200 CELL_DEAD

/-- The board of `main` when the loop starts: `add_glider(cur_board, 2, 2)`. -/
def initial_board : Option Board := add_glider empty_board 2 2

/-- One generation update, lines 208-216 of `main`: `memcpy` of `cur_board` into
`old_board`, then `apply_rules(cur_board, old_board, x, y)` for `y` and `x` in
row-major order. -/
def generation_update (cur_board : Board) : Option Board :=
  let old_board := cur_board
  (List.range 10).foldlM
    (fun cur (y : Nat) =>
      (List.range 20).foldlM
        (fun cur (x : Nat) => apply_rules cur old_board (x : Int) (y : Int))
        cur)
    cur_board

/-- Repeating the generation update `n` times. -/
def generations : Nat → Board → Option Board
  | 0, b => some b
  | n + 1, b => (generation_update b).bind (generations n)

/-- The state that the body of `apply_rules` leaves in a cell that held `c`, when
the count of living neighbours is `neighbors` (a cell that is not written keeps
its state). -/
def rule (c : cell_t) (neighbors : Nat) : cell_t :=
  if c = CELL_ALIVE then
    if neighbors < 2 ∨ neighbors > 3 then CELL_DEAD else CELL_ALIVE
  else if neighbors = 3 then CELL_ALIVE
  else CELL_DEAD

/-- The calls `apply_rules(cur, old, x, y)` over a list of coordinates, in the
order of the list. -/
def apply_rules_over (old : Board) (coords : List (Int × Int)) (cur : Board) : Option Board :=
  coords.foldlM (fun c p => apply_rules c old p.1 p.2) cur

/-- The coordinates in the order of the two loops of `main`: `y` outside, `x` inside. -/
def row_major : List (Int × Int) :=
  (List.range 10).flatMap fun (y : Nat) =>
    (List.range 20).map fun (x : Nat) => ((x : Int), (y : Int))

/-! ## Vocabulary of the specification -/

/-- The cell of a board at coordinate `(x, y)`: the read `board[coord_to_idx(x, y)]`. -/
def cell_at (b : Board) (x y : Int) : Option cell_t := read b (coord_to_idx x y)

/-- The eight neighbour offsets `(dx, dy)`: N, S, W, E, NW, NE, SW, SE. -/
def neighbor_offsets : List (Int × Int) :=
  [(0, -1), (0, 1), (-1, 0), (1, 0), (-1, -1), (1, -1), (-1, 1), (1, 1)]

/-- Written from the specification: the number of offsets `(dx, dy)` among the
eight for which the cell at `((x + dx) mod 20, (y + dy) mod 10)` is Alive, with
`mod` the non-negative remainder. -/
def torus_neighbors (b : Board) (x y : Int) : Nat :=
  neighbor_offsets.countP
    (fun d => decide (cell_at b ((x + d.1) % 20) ((y + d.2) % 10) = some CELL_ALIVE))

/-- The effect on `c` of one successful call `apply_rules(c, old, x, y)`, as a
function: the slot of `(x, y)` receives `rule` of its state in `c` and the
neighbour count in `old`. -/
def update_cell (old : Board) (c : Board) (p : Int × Int) : Board :=
  c.set (p.2 * 20 + p.1).toNat
    (rule (c.getD (p.2 * 20 + p.1).toNat CELL_DEAD) (torus_neighbors old p.1 p.2))

/-- The board in which every cell holds `rule` of its state and neighbour count
in `b`: all cells computed from `b` alone. -/
def next_board (b : Board) : Board :=
  (List.range 200).map fun i =>
    rule (b.getD i CELL_DEAD) (torus_neighbors b ((i % 20 : Nat) : Int) ((i / 20 : Nat) : Int))

/-- A coordinate inside the board: `0 <= x < 20` and `0 <= y < 10`. -/
def in_range (p : Int × Int) : Prop := 0 ≤ p.1 ∧ p.1 < 20 ∧ 0 ≤ p.2 ∧ p.2 < 10

instance (p : Int × Int) : Decidable (in_range p) := by
  unfold in_range; infer_instance

/-- The board of 200 cells in which cell `(x, y)` is Alive exactly when `A x y` holds. -/
def board_of (A : Int → Int → Bool) : Board :=
  (List.range 200).map fun (i : Nat) =>
    if A ((i % 20 : Nat) : Int) ((i / 20 : Nat) : Int) then CELL_ALIVE else CELL_DEAD

/-- Membership of `(x, y)` in a list of coordinates. -/
def alive_in (cells : List (Int × Int)) (x y : Int) : Bool := decide ((x, y) ∈ cells)

/-- The board of 200 cells whose only Alive cells are the listed coordinates. -/
def board_with (cells : List (Int × Int)) : Board := board_of (alive_in cells)

/-- The next generation of a board given by a predicate: `rule` applied to the
state of `(x, y)` and to the number of the eight toroidal neighbours that hold. -/
def life (A : Int → Int → Bool) (x y : Int) : Bool :=
  decide (rule (if A x y then CELL_ALIVE else CELL_DEAD)
    (neighbor_offsets.countP fun d => A ((x + d.1) % 20) ((y + d.2) % 10)) = CELL_ALIVE)

/-- The predicate `A` moved by `(sx, sy)` on the torus: it holds at `(x, y)` when `A`
holds at `((x - sx) mod 20, (y - sy) mod 10)`. -/
def translate (A : Int → Int → Bool) (sx sy : Int) (x y : Int) : Bool :=
  A ((x - sx) % 20) ((y - sy) % 10)

/-- The three cells of the horizontal line centred at `(cx, cy)`. -/
def horizontal_cells (cx cy : Int) : List (Int × Int) :=
  [((cx - 1) % 20, cy), (cx, cy), ((cx + 1) % 20, cy)]

/-- The three cells of the vertical line centred at `(cx, cy)`. -/
def vertical_cells (cx cy : Int) : List (Int × Int) :=
  [(cx, (cy - 1) % 10), (cx, cy), (cx, (cy + 1) % 10)]

/-- The board whose only Alive cells are the horizontal line of three cells
centred at `(cx, cy)`. -/
def horizontal_line (cx cy : Int) : Board := board_with (horizontal_cells cx cy)

/-- The board whose only Alive cells are the vertical line of three cells
centred at `(cx, cy)`. -/
def vertical_line (cx cy : Int) : Board := board_with (vertical_cells cx cy)

/-- The five cells of the glider drawn by `add_glider` at an origin that is at
least two cells away from the right and bottom edges. -/
def glider_cells (ox oy : Int) : List (Int × Int) :=
  [(ox + 1, oy), (ox + 2, oy + 1), (ox, oy + 2), (ox + 1, oy + 2), (ox + 2, oy + 2)]

/-! ## The renderer -/

/-- The macro `coord_to_idx(x, y)` on the `size_t` loop variables of `print_board`
(both below 20, so that the unsigned arithmetic does not wrap). -/
def coord_to_idx_size (x y : Nat) : Nat := y * 20 + x

/-- The library call `puts(s)`: the characters of `s`, then a line terminator. -/
def puts (s : List Char) : List Char := s ++ ['\n']

/-- The function `void print_board(cell_t* board)`: the characters written to the
standard output, in order. -/
def print_board (board : Board) : Option (List Char) :=
  (List.range 10).foldlM
    (fun out (y : Nat) =>
      ((List.range 20).foldlM
        (fun out (x : Nat) =>
          (board[coord_to_idx_size x y]?).map fun c =>
            if y ≠ 19 then out ++ [printable_state c] ++ [' ']
            else out ++ [printable_state c])
        (out ++ ['|'])).map fun out => out ++ puts ['|', '\n'])
    []

/-- Written from the specification: the display line of row `y`, that is `|`, then
for `x = 0 .. 19` the glyph of cell `(x, y)` followed by a space, then `|` and a
line terminator. -/
def row_line (b : Board) (y : Nat) : List Char :=
  ['|'] ++ ((List.range 20).flatMap fun (x : Nat) =>
    [printable_state (b.getD (y * 20 + x) CELL_DEAD), ' ']) ++ ['|', '\n']

/-- Written from the specification: ten display lines, one per row in the order
`y = 0 .. 9`, and no other line. -/
def display_lines (b : Board) : List Char := (List.range 10).flatMap (row_line b)

/-- The number of lines of an output: the number of its line terminators. -/
def line_count (out : List Char) : Nat := out.count '\n'

/-! ## Variations used by the claims -/

/-- The row-major pass without a snapshot: `apply_rules` is called with the same,
progressively updated board as both `current` and `old`. -/
def in_place_update (cur_board : Board) : Option Board :=
  (List.range 10).foldlM
    (fun cur (y : Nat) =>
      (List.range 20).foldlM
        (fun cur (x : Nat) => apply_rules cur cur (x : Int) (y : Int))
        cur)
    cur_board

/-- Written from the specification: the board whose cell at `(x, y)` is the cell of
`b` at `((x - dx) mod 20, (y - dy) mod 10)`. -/
def shift (b : Board) (dx dy : Int) : Board :=
  (List.range 200).map fun (i : Nat) =>
    b.getD
      (((((i / 20 : Nat) : Int) - dy) % 10) * 20 + (((i % 20 : Nat) : Int) - dx) % 20).toNat
      CELL_DEAD

/-- The predicate of a board: whether the cell at `(x, y)` is Alive. -/
def alive_at (b : Board) (x y : Int) : Bool :=
  decide (b.getD (y * 20 + x).toNat CELL_DEAD = CELL_ALIVE)

end GameOfLife


namespace GameOfLife

open cell_t

/-! ## Coordinates and indices -/

theorem wrap_int_small (z : Int) (h1 : -2147483648 ≤ z) (h2 : z < 2147483648) :
    wrap_int z = z := by
  unfold wrap_int; omega

theorem coord_to_idx_small (x y : Int) (hx0 : 0 ≤ x) (hx : x < 20) (hy0 : 0 ≤ y)
    (hy : y < 10) : coord_to_idx x y = y * 20 + x := by
  unfold coord_to_idx BOARD_WIDTH wrap_int; omega

theorem wrap_coords_fst (x y : Int) :
    0 ≤ (wrap_coords x y).1 ∧ (wrap_coords x y).1 < 20 := by
  unfold wrap_coords BOARD_WIDTH; dsimp only; split_ifs <;> omega

theorem wrap_coords_snd (x y : Int) :
    0 ≤ (wrap_coords x y).2 ∧ (wrap_coords x y).2 < 10 := by
  unfold wrap_coords BOARD_HEIGHT; dsimp only; split_ifs <;> omega

theorem wrap_coords_index (x y : Int) :
    0 ≤ coord_to_idx (wrap_coords x y).1 (wrap_coords x y).2 ∧
      coord_to_idx (wrap_coords x y).1 (wrap_coords x y).2 < 200 := by
  have h1 := wrap_coords_fst x y
  have h2 := wrap_coords_snd x y
  rw [coord_to_idx_small _ _ h1.1 h1.2 h2.1 h2.2]
  omega

theorem read_of_lt (b : Board) (i : Int) (h0 : 0 ≤ i) (h : i.toNat < b.length) :
    read b i = some (b.get ⟨i.toNat, h⟩) := by
  unfold read
  rw [if_pos h0]
  exact List.getElem?_eq_getElem h

theorem wrap_coords_near (x y : Int) (hx0 : -1 ≤ x) (hx : x ≤ 20) (hy0 : -1 ≤ y)
    (hy : y ≤ 10) : wrap_coords x y = (x % 20, y % 10) := by
  unfold wrap_coords BOARD_WIDTH BOARD_HEIGHT
  refine Prod.ext ?_ ?_ <;> dsimp only <;> split_ifs <;> omega

theorem move_eq (x y : Int) (hx0 : 0 ≤ x) (hx : x < 20) (hy0 : 0 ≤ y) (hy : y < 10)
    (k : Nat) (hk : k < 8) :
    move x y k =
      (x + (neighbor_offsets.getD k (0, 0)).1, y + (neighbor_offsets.getD k (0, 0)).2) := by
  have hk8 : k = 0 ∨ k = 1 ∨ k = 2 ∨ k = 3 ∨ k = 4 ∨ k = 5 ∨ k = 6 ∨ k = 7 := by omega
  have e1 : wrap_int (x - 1) = x + -1 := by rw [wrap_int_small] <;> omega
  have e2 : wrap_int (x + 1) = x + 1 := by rw [wrap_int_small] <;> omega
  have e3 : wrap_int (y - 1) = y + -1 := by rw [wrap_int_small] <;> omega
  have e4 : wrap_int (y + 1) = y + 1 := by rw [wrap_int_small] <;> omega
  rcases hk8 with h | h | h | h | h | h | h | h <;> subst h <;>
    simp [move, neighbor_offsets, e1, e2, e3, e4]

theorem check_neighbor_index_eq (x y : Int) (hx0 : 0 ≤ x) (hx : x < 20) (hy0 : 0 ≤ y)
    (hy : y < 10) (k : Nat) (hk : k < 8) :
    check_neighbor_index x y k =
      coord_to_idx ((x + (neighbor_offsets.getD k (0, 0)).1) % 20)
        ((y + (neighbor_offsets.getD k (0, 0)).2) % 10) := by
  have hk8 : k = 0 ∨ k = 1 ∨ k = 2 ∨ k = 3 ∨ k = 4 ∨ k = 5 ∨ k = 6 ∨ k = 7 := by omega
  unfold check_neighbor_index
  simp only [move_eq x y hx0 hx hy0 hy k hk]
  rw [wrap_coords_near]
  all_goals
    rcases hk8 with h | h | h | h | h | h | h | h <;> subst h <;>
      simp [neighbor_offsets] <;> omega

/-! ## Reading cells and counting neighbours -/

theorem cell_at_eq_getD (b : Board) (hb : b.length = 200) (x y : Int) (hx0 : 0 ≤ x)
    (hx : x < 20) (hy0 : 0 ≤ y) (hy : y < 10) :
    cell_at b x y = some (b.getD (y * 20 + x).toNat CELL_DEAD) := by
  unfold cell_at
  rw [coord_to_idx_small x y hx0 hx hy0 hy]
  have h : (y * 20 + x).toNat < b.length := by omega
  rw [read_of_lt b _ (by omega) h, List.getD_eq_getElem b CELL_DEAD h]
  rfl

theorem check_neighbor_eq (b : Board) (x y : Int) (hx0 : 0 ≤ x) (hx : x < 20) (hy0 : 0 ≤ y)
    (hy : y < 10) (k : Nat) (hk : k < 8) :
    check_neighbor b x y k =
      cell_at b ((x + (neighbor_offsets.getD k (0, 0)).1) % 20)
        ((y + (neighbor_offsets.getD k (0, 0)).2) % 10) := by
  unfold check_neighbor cell_at
  rw [check_neighbor_index_eq x y hx0 hx hy0 hy k hk]

theorem count_loop (g : Nat → Option cell_t) (c : Nat → cell_t) (ks : List Nat)
    (h : ∀ k ∈ ks, g k = some (c k)) (n : Nat) :
    ks.foldlM
        (fun n_elements i =>
          (g i).map (fun v => if v = CELL_ALIVE then n_elements + 1 else n_elements)) n =
      some (n + ks.countP (fun k => decide (c k = CELL_ALIVE))) := by
  induction ks generalizing n with
  | nil => simp
  | cons k ks ih =>
    have hk : g k = some (c k) := h k (List.mem_cons_self k ks)
    have hks : ∀ j ∈ ks, g j = some (c j) := fun j hj => h j (List.mem_cons_of_mem k hj)
    rw [List.foldlM_cons, hk]
    simp only [Option.map_some', Option.bind_eq_bind, Option.some_bind]
    rw [ih hks, List.countP_cons]
    by_cases hc : c k = CELL_ALIVE
    · simp [hc]; omega
    · simp [hc]

theorem get_living_neighbors_eq (b : Board) (hb : b.length = 200) (x y : Int)
    (hx0 : 0 ≤ x) (hx : x < 20) (hy0 : 0 ≤ y) (hy : y < 10) :
    get_living_neighbors b x y = some (torus_neighbors b x y) := by
  unfold get_living_neighbors
  rw [count_loop (fun i => check_neighbor b x y i)
    (fun k => b.getD
      (((y + (neighbor_offsets.getD k (0, 0)).2) % 10) * 20 +
        (x + (neighbor_offsets.getD k (0, 0)).1) % 20).toNat CELL_DEAD)]
  · have e : ∀ d : Int × Int, cell_at b ((x + d.1) % 20) ((y + d.2) % 10) =
        some (b.getD (((y + d.2) % 10) * 20 + (x + d.1) % 20).toNat CELL_DEAD) := by
      intro d
      apply cell_at_eq_getD b hb <;> omega
    unfold torus_neighbors
    simp only [e, Option.some.injEq]
    simp [neighbor_offsets, List.range, List.range.loop, List.countP_cons]
  · intro k hk
    have hk8 : k < 8 := List.mem_range.mp hk
    rw [check_neighbor_eq b x y hx0 hx hy0 hy k hk8]
    apply cell_at_eq_getD b hb <;> omega

/-! ## One call of `apply_rules` -/

theorem write_of_lt (b : Board) (i : Int) (v : cell_t) (h0 : 0 ≤ i) (h : i.toNat < b.length) :
    write b i v = some (b.set i.toNat v) := by
  unfold write
  rw [if_pos ⟨h0, h⟩]

theorem set_getD_self (b : Board) (i : Nat) : b.set i (b.getD i CELL_DEAD) = b := by
  induction b generalizing i with
  | nil => rfl
  | cons a t ih =>
    cases i with
    | zero => rfl
    | succ j =>
      show a :: t.set j (t.getD j CELL_DEAD) = a :: t
      rw [ih]

theorem apply_rules_eq (cur old : Board) (hc : cur.length = 200) (ho : old.length = 200)
    (x y : Int) (hx0 : 0 ≤ x) (hx : x < 20) (hy0 : 0 ≤ y) (hy : y < 10) :
    apply_rules cur old x y =
      some (cur.set (y * 20 + x).toNat
        (rule (cur.getD (y * 20 + x).toNat CELL_DEAD) (torus_neighbors old x y))) := by
  unfold apply_rules
  rw [get_living_neighbors_eq old ho x y hx0 hx hy0 hy]
  have hr := cell_at_eq_getD cur hc x y hx0 hx hy0 hy
  unfold cell_at at hr
  simp only [Option.some_bind, hr]
  rw [coord_to_idx_small x y hx0 hx hy0 hy]
  have hlt : (y * 20 + x).toNat < cur.length := by omega
  have h0 : (0 : Int) ≤ y * 20 + x := by omega
  unfold rule
  by_cases hA : cur.getD (y * 20 + x).toNat CELL_DEAD = CELL_ALIVE
  · rw [if_pos hA, if_pos hA]
    by_cases hn : torus_neighbors old x y < 2 ∨ torus_neighbors old x y > 3
    · rw [if_pos hn, if_pos hn, write_of_lt cur _ _ h0 hlt]
    · rw [if_neg hn, if_neg hn, ← hA, set_getD_self]
  · have hD : cur.getD (y * 20 + x).toNat CELL_DEAD = CELL_DEAD := by
      cases hv : cur.getD (y * 20 + x).toNat CELL_DEAD with
      | CELL_DEAD => rfl
      | CELL_ALIVE => exact absurd hv hA
    rw [if_neg hA, if_neg hA]
    by_cases hn : torus_neighbors old x y = 3
    · rw [if_pos hn, if_pos hn, write_of_lt cur _ _ h0 hlt]
    · rw [if_neg hn, if_neg hn, ← hD, set_getD_self]

/-! ## A pass of `apply_rules` over a list of coordinates -/

theorem update_cell_length (old c : Board) (p : Int × Int) :
    (update_cell old c p).length = c.length := by
  unfold update_cell; exact List.length_set _ _ _

theorem apply_rules_over_eq (old : Board) (ho : old.length = 200) (l : List (Int × Int))
    (hl : ∀ p ∈ l, in_range p) (cur : Board) (hc : cur.length = 200) :
    apply_rules_over old l cur = some (l.foldl (update_cell old) cur) := by
  induction l generalizing cur with
  | nil => rfl
  | cons p l ih =>
    obtain ⟨h1, h2, h3, h4⟩ := hl p (List.mem_cons_self p l)
    have hl2 : ∀ q ∈ l, in_range q := fun q hq => hl q (List.mem_cons_of_mem p hq)
    unfold apply_rules_over at ih ⊢
    rw [List.foldlM_cons, apply_rules_eq cur old hc ho p.1 p.2 h1 h2 h3 h4]
    simp only [Option.bind_eq_bind, Option.some_bind, List.foldl_cons]
    apply ih hl2
    rw [List.length_set]
    exact hc

theorem foldl_update_length (old : Board) (l : List (Int × Int)) (cur : Board) :
    (l.foldl (update_cell old) cur).length = cur.length := by
  induction l generalizing cur with
  | nil => rfl
  | cons p l ih => rw [List.foldl_cons, ih, update_cell_length]

theorem foldl_update_getD (old : Board) (l : List (Int × Int)) (hl : ∀ p ∈ l, in_range p)
    (hn : l.Nodup) (cur : Board) (hc : cur.length = 200) (q : Int × Int) (hq : in_range q) :
    (l.foldl (update_cell old) cur).getD (q.2 * 20 + q.1).toNat CELL_DEAD =
      if q ∈ l then
        rule (cur.getD (q.2 * 20 + q.1).toNat CELL_DEAD) (torus_neighbors old q.1 q.2)
      else cur.getD (q.2 * 20 + q.1).toNat CELL_DEAD := by
  induction l generalizing cur with
  | nil => simp
  | cons p l ih =>
    have hp : in_range p := hl p (List.mem_cons_self p l)
    have hl2 : ∀ r ∈ l, in_range r := fun r hr => hl r (List.mem_cons_of_mem p hr)
    obtain ⟨hpl, hn2⟩ := List.nodup_cons.mp hn
    rw [List.foldl_cons, ih hl2 hn2 _ (by rw [update_cell_length]; exact hc)]
    obtain ⟨p1, p2, p3, p4⟩ := hp
    obtain ⟨q1, q2, q3, q4⟩ := hq
    by_cases hqp : q = p
    · subst hqp
      have hlt : (q.2 * 20 + q.1).toNat < cur.length := by omega
      rw [if_neg hpl, if_pos (List.mem_cons_self q l)]
      unfold update_cell
      simp [List.getElem?_set_self hlt]
    · have hne : (p.2 * 20 + p.1).toNat ≠ (q.2 * 20 + q.1).toNat := by
        intro h
        apply hqp
        apply Prod.ext <;> omega
      have hmem : q ∈ p :: l ↔ q ∈ l := by
        rw [List.mem_cons]
        exact ⟨fun h => h.resolve_left hqp, Or.inr⟩
      have hget : (update_cell old cur p).getD (q.2 * 20 + q.1).toNat CELL_DEAD =
          cur.getD (q.2 * 20 + q.1).toNat CELL_DEAD := by
        unfold update_cell
        simp [List.getElem?_set_ne hne]
      simp only [hget, hmem]

/-! ## The whole generation update -/

theorem next_board_length (b : Board) : (next_board b).length = 200 := by
  unfold next_board; simp

theorem next_board_getD (b : Board) (q : Int × Int) (hq : in_range q) :
    (next_board b).getD (q.2 * 20 + q.1).toNat CELL_DEAD =
      rule (b.getD (q.2 * 20 + q.1).toNat CELL_DEAD) (torus_neighbors b q.1 q.2) := by
  obtain ⟨q1, q2, q3, q4⟩ := hq
  have hlt : (q.2 * 20 + q.1).toNat < 200 := by omega
  have hx : (((q.2 * 20 + q.1).toNat % 20 : Nat) : Int) = q.1 := by omega
  have hy : (((q.2 * 20 + q.1).toNat / 20 : Nat) : Int) = q.2 := by omega
  unfold next_board
  rw [List.getD_eq_getElem _ CELL_DEAD (by simpa using hlt)]
  simp only [List.getElem_map, List.getElem_range, hx, hy]

theorem apply_rules_over_all (b : Board) (hb : b.length = 200) (l : List (Int × Int))
    (hn : l.Nodup) (hl : ∀ p, p ∈ l ↔ in_range p) :
    apply_rules_over b l b = some (next_board b) := by
  have hl1 : ∀ p ∈ l, in_range p := fun p hp => (hl p).mp hp
  rw [apply_rules_over_eq b hb l hl1 b hb]
  congr 1
  apply List.ext_getElem
  · rw [foldl_update_length, next_board_length, hb]
  · intro i h1 h2
    rw [foldl_update_length, hb] at h1
    have hq : in_range (((i % 20 : Nat) : Int), ((i / 20 : Nat) : Int)) := by
      unfold in_range; dsimp only; omega
    have hi : ((((i / 20 : Nat) : Int)) * 20 + ((i % 20 : Nat) : Int)).toNat = i := by omega
    have e1 := foldl_update_getD b l hl1 hn b hb _ hq
    have e2 := next_board_getD b _ hq
    rw [if_pos ((hl _).mpr hq)] at e1
    rw [hi] at e1 e2
    rw [List.getD_eq_getElem _ CELL_DEAD (by rw [foldl_update_length, hb]; exact h1)] at e1
    rw [List.getD_eq_getElem _ CELL_DEAD h2] at e2
    rw [e1, e2]

theorem mem_row_major (p : Int × Int) : p ∈ row_major ↔ in_range p := by
  unfold row_major in_range
  simp only [List.mem_flatMap, List.mem_map, List.mem_range]
  constructor
  · rintro ⟨y, hy, x, hx, rfl⟩
    dsimp only; omega
  · rintro ⟨h1, h2, h3, h4⟩
    refine ⟨p.2.toNat, by omega, p.1.toNat, by omega, ?_⟩
    apply Prod.ext <;> dsimp only <;> omega

theorem nodup_row_major : row_major.Nodup := by
  unfold row_major
  rw [List.nodup_flatMap]
  refine ⟨?_, ?_⟩
  · intro y _
    apply List.Nodup.map _ (List.nodup_range 20)
    intro a c h
    have := congrArg Prod.fst h
    simpa using this
  · apply List.Pairwise.imp_of_mem _ (List.nodup_range 10)
    intro y1 y2 _ _ hne
    simp only [Function.onFun, List.disjoint_left, List.mem_map, List.mem_range]
    rintro p ⟨x1, _, rfl⟩ ⟨x2, _, h⟩
    have := congrArg Prod.snd h
    simp only [Nat.cast_inj] at this
    exact hne this.symm

theorem foldlM_flatMap_rows (f : Board → Int × Int → Option Board) (ys : List Nat)
    (g : Nat → List (Int × Int)) (c : Board) :
    (ys.flatMap g).foldlM f c = ys.foldlM (fun c y => (g y).foldlM f c) c := by
  induction ys generalizing c with
  | nil => rfl
  | cons y ys ih =>
    rw [List.flatMap_cons, List.foldlM_append, List.foldlM_cons]
    congr 1
    funext c2
    exact ih c2

theorem generation_update_eq_over (b : Board) :
    generation_update b = apply_rules_over b row_major b := by
  unfold generation_update apply_rules_over row_major
  rw [foldlM_flatMap_rows]
  simp only [List.foldlM_map]

theorem generation_update_eq (b : Board) (hb : b.length = 200) :
    generation_update b = some (next_board b) := by
  rw [generation_update_eq_over, apply_rules_over_all b hb row_major nodup_row_major mem_row_major]

/-! ## Boards given by a predicate -/

theorem board_of_length (A : Int → Int → Bool) : (board_of A).length = 200 := by
  unfold board_of; simp

theorem board_of_getD (A : Int → Int → Bool) (i : Nat) (hi : i < 200) :
    (board_of A).getD i CELL_DEAD =
      if A ((i % 20 : Nat) : Int) ((i / 20 : Nat) : Int) then CELL_ALIVE else CELL_DEAD := by
  unfold board_of
  rw [List.getD_eq_getElem _ CELL_DEAD (by simpa using hi)]
  simp only [List.getElem_map, List.getElem_range]

theorem cell_at_board_of (A : Int → Int → Bool) (x y : Int) (hx0 : 0 ≤ x) (hx : x < 20)
    (hy0 : 0 ≤ y) (hy : y < 10) :
    cell_at (board_of A) x y = some (if A x y then CELL_ALIVE else CELL_DEAD) := by
  rw [cell_at_eq_getD _ (board_of_length A) x y hx0 hx hy0 hy,
    board_of_getD A _ (by omega)]
  have e1 : (((y * 20 + x).toNat % 20 : Nat) : Int) = x := by omega
  have e2 : (((y * 20 + x).toNat / 20 : Nat) : Int) = y := by omega
  rw [e1, e2]

theorem torus_neighbors_board_of (A : Int → Int → Bool) (x y : Int) :
    torus_neighbors (board_of A) x y =
      neighbor_offsets.countP fun d => A ((x + d.1) % 20) ((y + d.2) % 10) := by
  unfold torus_neighbors
  congr 1
  funext d
  rw [cell_at_board_of A _ _ (by omega) (by omega) (by omega) (by omega)]
  cases A ((x + d.1) % 20) ((y + d.2) % 10) <;> simp

theorem board_of_ext (A B : Int → Int → Bool)
    (h : ∀ i : Nat, i < 200 →
      A ((i % 20 : Nat) : Int) ((i / 20 : Nat) : Int) =
        B ((i % 20 : Nat) : Int) ((i / 20 : Nat) : Int)) :
    board_of A = board_of B := by
  unfold board_of
  apply List.map_congr_left
  intro i hi
  rw [h i (List.mem_range.mp hi)]

theorem next_board_board_of (A : Int → Int → Bool) :
    next_board (board_of A) = board_of (life A) := by
  unfold next_board
  conv_rhs => unfold board_of
  apply List.map_congr_left
  intro i hi
  have hi2 : i < 200 := List.mem_range.mp hi
  rw [board_of_getD A i hi2, torus_neighbors_board_of]
  unfold life
  cases rule (if A ((i % 20 : Nat) : Int) ((i / 20 : Nat) : Int) then CELL_ALIVE else CELL_DEAD)
    (neighbor_offsets.countP fun d =>
      A ((((i % 20 : Nat) : Int) + d.1) % 20) ((((i / 20 : Nat) : Int) + d.2) % 10)) <;> simp

theorem generation_update_board_of (A : Int → Int → Bool) :
    generation_update (board_of A) = some (board_of (life A)) := by
  rw [generation_update_eq _ (board_of_length A), next_board_board_of]

theorem board_eq_board_of (b : Board) (hb : b.length = 200) (A : Int → Int → Bool)
    (h : ∀ x y : Int, 0 ≤ x → x < 20 → 0 ≤ y → y < 10 →
      cell_at b x y = some (if A x y then CELL_ALIVE else CELL_DEAD)) :
    b = board_of A := by
  apply List.ext_getElem
  · rw [hb, board_of_length]
  · intro i h1 h2
    have hi : i < 200 := by omega
    have e := h ((i % 20 : Nat) : Int) ((i / 20 : Nat) : Int) (by omega) (by omega) (by omega)
      (by omega)
    rw [cell_at_eq_getD b hb _ _ (by omega) (by omega) (by omega) (by omega)] at e
    have hidx : ((((i / 20 : Nat) : Int)) * 20 + ((i % 20 : Nat) : Int)).toNat = i := by omega
    rw [hidx, List.getD_eq_getElem b CELL_DEAD h1] at e
    have e2 := board_of_getD A i hi
    rw [List.getD_eq_getElem _ CELL_DEAD h2] at e2
    rw [e2]
    exact Option.some.inj e

theorem pointwise_of_index (P : Int → Int → Prop)
    (h : ∀ i : Nat, i < 200 → P ((i % 20 : Nat) : Int) ((i / 20 : Nat) : Int))
    (x y : Int) (hx0 : 0 ≤ x) (hx : x < 20) (hy0 : 0 ≤ y) (hy : y < 10) : P x y := by
  have e := h (y * 20 + x).toNat (by omega)
  have e1 : (((y * 20 + x).toNat % 20 : Nat) : Int) = x := by omega
  have e2 : (((y * 20 + x).toNat / 20 : Nat) : Int) = y := by omega
  rw [e1, e2] at e
  exact e

theorem life_congr (A B : Int → Int → Bool)
    (h : ∀ x y : Int, 0 ≤ x → x < 20 → 0 ≤ y → y < 10 → A x y = B x y)
    (x y : Int) (hx0 : 0 ≤ x) (hx : x < 20) (hy0 : 0 ≤ y) (hy : y < 10) :
    life A x y = life B x y := by
  unfold life
  rw [h x y hx0 hx hy0 hy]
  have e : (fun d : Int × Int => A ((x + d.1) % 20) ((y + d.2) % 10)) =
      fun d : Int × Int => B ((x + d.1) % 20) ((y + d.2) % 10) := by
    funext d
    exact h _ _ (by omega) (by omega) (by omega) (by omega)
  rw [e]

theorem life_translate (A : Int → Int → Bool) (sx sy x y : Int) :
    life (translate A sx sy) x y = translate (life A) sx sy x y := by
  unfold translate life
  have e : (fun d : Int × Int =>
        A (((x + d.1) % 20 - sx) % 20) (((y + d.2) % 10 - sy) % 10)) =
      fun d : Int × Int =>
        A (((x - sx) % 20 + d.1) % 20) (((y - sy) % 10 + d.2) % 10) := by
    funext d
    have e1 : ((x + d.1) % 20 - sx) % 20 = ((x - sx) % 20 + d.1) % 20 := by omega
    have e2 : ((y + d.2) % 10 - sy) % 10 = ((y - sy) % 10 + d.2) % 10 := by omega
    rw [e1, e2]
  rw [e]

theorem board_of_false : board_of (fun _ _ => false) = empty_board := by
  unfold board_of empty_board
  apply List.ext_getElem
  · rw [List.length_map, List.length_range, List.length_replicate]
  · intro i h1 h2
    rw [List.getElem_map, List.getElem_replicate]
    rfl

theorem index_check (A B : Int → Int → Bool)
    (h : ((List.range 200).all fun (i : Nat) =>
      A ((i % 20 : Nat) : Int) ((i / 20 : Nat) : Int) ==
        B ((i % 20 : Nat) : Int) ((i / 20 : Nat) : Int)) = true) :
    ∀ i : Nat, i < 200 →
      A ((i % 20 : Nat) : Int) ((i / 20 : Nat) : Int) =
        B ((i % 20 : Nat) : Int) ((i / 20 : Nat) : Int) := by
  intro i hi
  rw [List.all_eq_true] at h
  exact beq_iff_eq.mp (h i (List.mem_range.mpr hi))

theorem rule_alive_iff (c : cell_t) (n : Nat) :
    rule c n = CELL_ALIVE ↔ (c = CELL_ALIVE ∧ (n = 2 ∨ n = 3)) ∨ (c = CELL_DEAD ∧ n = 3) := by
  unfold rule
  cases c
  · by_cases h : n = 3 <;> simp [h]
  · by_cases h : n < 2 ∨ n > 3
    · simp [h]; omega
    · simp [h]; omega

theorem horizontal_cells_translate (cx cy : Int) (hcx0 : 0 ≤ cx) (hcx : cx < 20)
    (hcy0 : 0 ≤ cy) (hcy : cy < 10) (x y : Int) (hx0 : 0 ≤ x) (hx : x < 20) (hy0 : 0 ≤ y)
    (hy : y < 10) :
    alive_in (horizontal_cells cx cy) x y =
      translate (alive_in (horizontal_cells 5 5)) (cx - 5) (cy - 5) x y := by
  unfold translate alive_in horizontal_cells
  simp only [List.mem_cons, Prod.mk.injEq, List.mem_singleton, List.not_mem_nil, or_false, decide_eq_decide]
  constructor <;> intro h <;> omega

theorem vertical_cells_translate (cx cy : Int) (hcx0 : 0 ≤ cx) (hcx : cx < 20)
    (hcy0 : 0 ≤ cy) (hcy : cy < 10) (x y : Int) (hx0 : 0 ≤ x) (hx : x < 20) (hy0 : 0 ≤ y)
    (hy : y < 10) :
    alive_in (vertical_cells cx cy) x y =
      translate (alive_in (vertical_cells 5 5)) (cx - 5) (cy - 5) x y := by
  unfold translate alive_in vertical_cells
  simp only [List.mem_cons, Prod.mk.injEq, List.mem_singleton, List.not_mem_nil, or_false, decide_eq_decide]
  constructor <;> intro h <;> omega

theorem single_cell_translate (x0 y0 : Int) (h1 : 0 ≤ x0) (h2 : x0 < 20)
    (h3 : 0 ≤ y0) (h4 : y0 < 10) (x y : Int) (hx0 : 0 ≤ x) (hx : x < 20) (hy0 : 0 ≤ y)
    (hy : y < 10) :
    alive_in [(x0, y0)] x y = translate (alive_in [(0, 0)]) x0 y0 x y := by
  unfold translate alive_in
  simp only [List.mem_singleton, Prod.mk.injEq, decide_eq_decide]
  omega

/-! ## Evaluation of `life` on the patterns of the claims -/

theorem generations_succ (n : Nat) (b : Board) :
    generations (n + 1) b = (generation_update b).bind (generations n) := rfl

set_option maxRecDepth 1000000 in
theorem glider_life_1 :
    ((List.range 200).all fun (i : Nat) =>
      life (alive_in (glider_cells 2 2)) ((i % 20 : Nat) : Int) ((i / 20 : Nat) : Int) ==
        alive_in [(2, 3), (4, 3), (3, 4), (4, 4), (3, 5)]
          ((i % 20 : Nat) : Int) ((i / 20 : Nat) : Int)) = true := by
  decide!

set_option maxRecDepth 1000000 in
theorem glider_life_2 :
    ((List.range 200).all fun (i : Nat) =>
      life (alive_in [(2, 3), (4, 3), (3, 4), (4, 4), (3, 5)])
          ((i % 20 : Nat) : Int) ((i / 20 : Nat) : Int) ==
        alive_in [(4, 3), (2, 4), (4, 4), (3, 5), (4, 5)]
          ((i % 20 : Nat) : Int) ((i / 20 : Nat) : Int)) = true := by
  decide!

set_option maxRecDepth 1000000 in
theorem glider_life_3 :
    ((List.range 200).all fun (i : Nat) =>
      life (alive_in [(4, 3), (2, 4), (4, 4), (3, 5), (4, 5)])
          ((i % 20 : Nat) : Int) ((i / 20 : Nat) : Int) ==
        alive_in [(3, 3), (4, 4), (5, 4), (3, 5), (4, 5)]
          ((i % 20 : Nat) : Int) ((i / 20 : Nat) : Int)) = true := by
  decide!

set_option maxRecDepth 1000000 in
theorem glider_life_4 :
    ((List.range 200).all fun (i : Nat) =>
      life (alive_in [(3, 3), (4, 4), (5, 4), (3, 5), (4, 5)])
          ((i % 20 : Nat) : Int) ((i / 20 : Nat) : Int) ==
        alive_in (glider_cells 3 3) ((i % 20 : Nat) : Int) ((i / 20 : Nat) : Int)) = true := by
  decide!

set_option maxRecDepth 1000000 in
theorem horizontal_life :
    ((List.range 200).all fun (i : Nat) =>
      life (alive_in (horizontal_cells 5 5)) ((i % 20 : Nat) : Int) ((i / 20 : Nat) : Int) ==
        alive_in (vertical_cells 5 5) ((i % 20 : Nat) : Int) ((i / 20 : Nat) : Int)) = true := by
  decide!

set_option maxRecDepth 1000000 in
theorem vertical_life :
    ((List.range 200).all fun (i : Nat) =>
      life (alive_in (vertical_cells 5 5)) ((i % 20 : Nat) : Int) ((i / 20 : Nat) : Int) ==
        alive_in (horizontal_cells 5 5) ((i % 20 : Nat) : Int) ((i / 20 : Nat) : Int)) = true := by
  decide!

set_option maxRecDepth 1000000 in
theorem single_cell_life :
    ((List.range 200).all fun (i : Nat) =>
      life (alive_in [(0, 0)]) ((i % 20 : Nat) : Int) ((i / 20 : Nat) : Int) ==
        (fun _ _ => false) ((i % 20 : Nat) : Int) ((i / 20 : Nat) : Int)) = true := by
  decide!

set_option maxRecDepth 1000000 in
theorem initial_board_eq : initial_board = some (board_with (glider_cells 2 2)) := by
  decide!

set_option maxRecDepth 1000000 in
theorem add_glider_3_3 : add_glider empty_board 3 3 = some (board_with (glider_cells 3 3)) := by
  decide!

/-! ## Helper lemmas for the claims -/

theorem add_glider_eq (b : Board) (hb : b.length = 200) (x y : Int) :
    add_glider b x y =
      some ((List.range 5).foldl
        (fun c i => c.set (add_glider_index x y i).toNat CELL_ALIVE) b) := by
  unfold add_glider
  generalize List.range 5 = is
  induction is generalizing b with
  | nil => rfl
  | cons i is ih =>
    have hi : 0 ≤ add_glider_index x y i ∧ add_glider_index x y i < 200 :=
      wrap_coords_index _ _
    rw [List.foldlM_cons, write_of_lt b _ _ hi.1 (by omega)]
    simp only [Option.bind_eq_bind, Option.some_bind, List.foldl_cons]
    apply ih
    rw [List.length_set]
    exact hb

theorem cell_at_board_with (cells : List (Int × Int)) (x y : Int) (hx0 : 0 ≤ x) (hx : x < 20)
    (hy0 : 0 ≤ y) (hy : y < 10) :
    cell_at (board_with cells) x y = some CELL_ALIVE ↔ (x, y) ∈ cells := by
  unfold board_with
  rw [cell_at_board_of _ x y hx0 hx hy0 hy]
  unfold alive_in
  by_cases h : (x, y) ∈ cells <;> simp [h]

theorem horizontal_step (cx cy : Int) (hcx0 : 0 ≤ cx) (hcx : cx < 20) (hcy0 : 0 ≤ cy)
    (hcy : cy < 10) :
    generation_update (horizontal_line cx cy) = some (vertical_line cx cy) := by
  unfold horizontal_line vertical_line board_with
  rw [generation_update_board_of]
  congr 1
  apply board_of_ext
  intro i hi
  rw [life_congr _ _ (horizontal_cells_translate cx cy hcx0 hcx hcy0 hcy) _ _
      (by omega) (by omega) (by omega) (by omega),
    life_translate,
    vertical_cells_translate cx cy hcx0 hcx hcy0 hcy _ _ (by omega) (by omega) (by omega)
      (by omega)]
  unfold translate
  exact pointwise_of_index
    (fun u v => life (alive_in (horizontal_cells 5 5)) u v = alive_in (vertical_cells 5 5) u v)
    (index_check _ _ horizontal_life) _ _ (by omega) (by omega) (by omega) (by omega)

theorem vertical_step (cx cy : Int) (hcx0 : 0 ≤ cx) (hcx : cx < 20) (hcy0 : 0 ≤ cy)
    (hcy : cy < 10) :
    generation_update (vertical_line cx cy) = some (horizontal_line cx cy) := by
  unfold horizontal_line vertical_line board_with
  rw [generation_update_board_of]
  congr 1
  apply board_of_ext
  intro i hi
  rw [life_congr _ _ (vertical_cells_translate cx cy hcx0 hcx hcy0 hcy) _ _
      (by omega) (by omega) (by omega) (by omega),
    life_translate,
    horizontal_cells_translate cx cy hcx0 hcx hcy0 hcy _ _ (by omega) (by omega) (by omega)
      (by omega)]
  unfold translate
  exact pointwise_of_index
    (fun u v => life (alive_in (vertical_cells 5 5)) u v = alive_in (horizontal_cells 5 5) u v)
    (index_check _ _ vertical_life) _ _ (by omega) (by omega) (by omega) (by omega)

theorem single_cell_step (x0 y0 : Int) (h1 : 0 ≤ x0) (h2 : x0 < 20) (h3 : 0 ≤ y0)
    (h4 : y0 < 10) :
    generation_update (board_with [(x0, y0)]) = some empty_board := by
  unfold board_with
  rw [generation_update_board_of, ← board_of_false]
  congr 1
  apply board_of_ext
  intro i hi
  rw [life_congr _ _ (single_cell_translate x0 y0 h1 h2 h3 h4) _ _
      (by omega) (by omega) (by omega) (by omega),
    life_translate]
  unfold translate
  exact pointwise_of_index
    (fun u v => life (alive_in [(0, 0)]) u v = false)
    (index_check (life (alive_in [(0, 0)])) (fun _ _ => false) single_cell_life) _ _ (by omega) (by omega) (by omega) (by omega)

theorem cell_at_empty_board (x y : Int) (hx0 : 0 ≤ x) (hx : x < 20) (hy0 : 0 ≤ y)
    (hy : y < 10) : cell_at empty_board x y = some CELL_DEAD := by
  rw [← board_of_false, cell_at_board_of _ x y hx0 hx hy0 hy]
  rfl

theorem glider_four_steps :
    generations 4 (board_with (glider_cells 2 2)) = some (board_with (glider_cells 3 3)) := by
  have s1 : generation_update (board_with (glider_cells 2 2)) =
      some (board_with [(2, 3), (4, 3), (3, 4), (4, 4), (3, 5)]) := by
    unfold board_with
    rw [generation_update_board_of, board_of_ext _ _ (index_check _ _ glider_life_1)]
  have s2 : generation_update (board_with [(2, 3), (4, 3), (3, 4), (4, 4), (3, 5)]) =
      some (board_with [(4, 3), (2, 4), (4, 4), (3, 5), (4, 5)]) := by
    unfold board_with
    rw [generation_update_board_of, board_of_ext _ _ (index_check _ _ glider_life_2)]
  have s3 : generation_update (board_with [(4, 3), (2, 4), (4, 4), (3, 5), (4, 5)]) =
      some (board_with [(3, 3), (4, 4), (5, 4), (3, 5), (4, 5)]) := by
    unfold board_with
    rw [generation_update_board_of, board_of_ext _ _ (index_check _ _ glider_life_3)]
  have s4 : generation_update (board_with [(3, 3), (4, 4), (5, 4), (3, 5), (4, 5)]) =
      some (board_with (glider_cells 3 3)) := by
    unfold board_with
    rw [generation_update_board_of, board_of_ext _ _ (index_check _ _ glider_life_4)]
  rw [generations_succ, s1, Option.some_bind, generations_succ, s2, Option.some_bind,
    generations_succ, s3, Option.some_bind, generations_succ, s4, Option.some_bind]
  rfl

/-! ## The claims -/

/-- C1: for every board `b` of 200 cells the generation update of `main` succeeds,
and in its result the cell at every in-range `(x, y)` is Alive if and only if, in
`b`, either the cell is Alive and exactly 2 or 3 of its eight toroidal neighbours
are Alive, or the cell is Dead and exactly 3 of them are Alive. -/
theorem generation_update_synchronous (b : Board) (hb : b.length = 200) :
    ∃ b2, generation_update b = some b2 ∧ b2.length = 200 ∧
      ∀ x y : Int, 0 ≤ x → x < 20 → 0 ≤ y → y < 10 →
        (cell_at b2 x y = some CELL_ALIVE ↔
          (cell_at b x y = some CELL_ALIVE ∧
              (torus_neighbors b x y = 2 ∨ torus_neighbors b x y = 3)) ∨
            (cell_at b x y = some CELL_DEAD ∧ torus_neighbors b x y = 3)) := by
  refine ⟨next_board b, generation_update_eq b hb, next_board_length b, ?_⟩
  intro x y hx0 hx hy0 hy
  rw [cell_at_eq_getD _ (next_board_length b) x y hx0 hx hy0 hy,
    cell_at_eq_getD b hb x y hx0 hx hy0 hy,
    next_board_getD b (x, y) ⟨hx0, hx, hy0, hy⟩]
  simp only [Option.some.injEq]
  exact rule_alive_iff _ _

/-- Witness of C1 on the board that holds the glider of `main`. -/
theorem generation_update_synchronous_witness :
    (board_with (glider_cells 2 2)).length = 200 ∧
      ∃ b2, generation_update (board_with (glider_cells 2 2)) = some b2 ∧ b2.length = 200 ∧
        ∀ x y : Int, 0 ≤ x → x < 20 → 0 ≤ y → y < 10 →
          (cell_at b2 x y = some CELL_ALIVE ↔
            (cell_at (board_with (glider_cells 2 2)) x y = some CELL_ALIVE ∧
                (torus_neighbors (board_with (glider_cells 2 2)) x y = 2 ∨
                  torus_neighbors (board_with (glider_cells 2 2)) x y = 3)) ∨
              (cell_at (board_with (glider_cells 2 2)) x y = some CELL_DEAD ∧
                torus_neighbors (board_with (glider_cells 2 2)) x y = 3)) :=
  ⟨board_of_length _, generation_update_synchronous _ (board_of_length _)⟩

set_option maxRecDepth 1000000 in
/-- C2, counterexample: with `current` holding only `(1, 1)` Alive and `old` holding
only `(0, 1)` and `(2, 1)` Alive, `apply_rules(current, old, 1, 1)` leaves `(1, 1)`
Alive, although in `old` that cell is Dead and has 2 living neighbours. -/
theorem apply_rules_not_function_of_old :
    apply_rules (board_with [(1, 1)]) (board_with [(0, 1), (2, 1)]) 1 1 =
        some (board_with [(1, 1)]) ∧
      ¬ (cell_at (board_with [(1, 1)]) 1 1 = some CELL_ALIVE ↔
        (cell_at (board_with [(0, 1), (2, 1)]) 1 1 = some CELL_ALIVE ∧
            (get_living_neighbors (board_with [(0, 1), (2, 1)]) 1 1 = some 2 ∨
              get_living_neighbors (board_with [(0, 1), (2, 1)]) 1 1 = some 3)) ∨
          (cell_at (board_with [(0, 1), (2, 1)]) 1 1 = some CELL_DEAD ∧
            get_living_neighbors (board_with [(0, 1), (2, 1)]) 1 1 = some 3)) := by
  decide!

/-- C2, amended: for boards `current` and `old` of 200 cells and in-range `(x, y)`,
`apply_rules(current, old, x, y)` succeeds and afterwards the cell at `(x, y)` is
Alive if and only if either that cell of `current` was Alive before the call and
`get_living_neighbors(old, x, y)` is 2 or 3, or it was Dead and the count is 3; when
`current` and `old` hold the same state at `(x, y)` before the call, this is the
stated function of `old` alone. -/
theorem apply_rules_cell (current old : Board) (hc : current.length = 200)
    (ho : old.length = 200) (x y : Int) (hx0 : 0 ≤ x) (hx : x < 20) (hy0 : 0 ≤ y)
    (hy : y < 10) :
    ∃ n c2, get_living_neighbors old x y = some n ∧ apply_rules current old x y = some c2 ∧
      (cell_at c2 x y = some CELL_ALIVE ↔
        (cell_at current x y = some CELL_ALIVE ∧ (n = 2 ∨ n = 3)) ∨
          (cell_at current x y = some CELL_DEAD ∧ n = 3)) ∧
      (cell_at current x y = cell_at old x y →
        (cell_at c2 x y = some CELL_ALIVE ↔
          (cell_at old x y = some CELL_ALIVE ∧ (n = 2 ∨ n = 3)) ∨
            (cell_at old x y = some CELL_DEAD ∧ n = 3))) := by
  have key : cell_at (current.set (y * 20 + x).toNat
        (rule (current.getD (y * 20 + x).toNat CELL_DEAD) (torus_neighbors old x y))) x y =
          some CELL_ALIVE ↔
      (cell_at current x y = some CELL_ALIVE ∧
          (torus_neighbors old x y = 2 ∨ torus_neighbors old x y = 3)) ∨
        (cell_at current x y = some CELL_DEAD ∧ torus_neighbors old x y = 3) := by
    have hlt : (y * 20 + x).toNat < current.length := by omega
    rw [cell_at_eq_getD _ (by rw [List.length_set]; exact hc) x y hx0 hx hy0 hy,
      cell_at_eq_getD current hc x y hx0 hx hy0 hy]
    simp only [Option.some.injEq, List.getD_eq_getElem?_getD, List.getElem?_set_self hlt,
      Option.getD_some]
    exact rule_alive_iff _ _
  refine ⟨torus_neighbors old x y, _, get_living_neighbors_eq old ho x y hx0 hx hy0 hy,
    apply_rules_eq current old hc ho x y hx0 hx hy0 hy, key, ?_⟩
  intro h
  rw [← h]
  exact key

/-- Witness of the amended C2 on the boards of the counterexample. -/
theorem apply_rules_cell_witness :
    (board_with [(1, 1)]).length = 200 ∧ (board_with [(0, 1), (2, 1)]).length = 200 ∧
      ∃ n c2, get_living_neighbors (board_with [(0, 1), (2, 1)]) 1 1 = some n ∧
        apply_rules (board_with [(1, 1)]) (board_with [(0, 1), (2, 1)]) 1 1 = some c2 ∧
        (cell_at c2 1 1 = some CELL_ALIVE ↔
          (cell_at (board_with [(1, 1)]) 1 1 = some CELL_ALIVE ∧ (n = 2 ∨ n = 3)) ∨
            (cell_at (board_with [(1, 1)]) 1 1 = some CELL_DEAD ∧ n = 3)) ∧
        (cell_at (board_with [(1, 1)]) 1 1 = cell_at (board_with [(0, 1), (2, 1)]) 1 1 →
          (cell_at c2 1 1 = some CELL_ALIVE ↔
            (cell_at (board_with [(0, 1), (2, 1)]) 1 1 = some CELL_ALIVE ∧ (n = 2 ∨ n = 3)) ∨
              (cell_at (board_with [(0, 1), (2, 1)]) 1 1 = some CELL_DEAD ∧ n = 3))) :=
  ⟨board_of_length _, board_of_length _,
    apply_rules_cell _ _ (board_of_length _) (board_of_length _) 1 1 (by decide) (by decide)
      (by decide) (by decide)⟩

/-- C3: for every board `b` of 200 cells and every in-range `(x, y)`,
`get_living_neighbors(b, x, y)` returns the number of offsets among the eight
N, S, W, E, NW, NE, SW, SE whose cell `((x + dx) mod 20, (y + dy) mod 10)` of `b`
is Alive. -/
theorem get_living_neighbors_counts_torus (b : Board) (hb : b.length = 200) (x y : Int)
    (hx0 : 0 ≤ x) (hx : x < 20) (hy0 : 0 ≤ y) (hy : y < 10) :
    get_living_neighbors b x y =
      some (([(0, -1), (0, 1), (-1, 0), (1, 0), (-1, -1), (1, -1), (-1, 1), (1, 1)] :
          List (Int × Int)).countP
        fun d => decide (cell_at b ((x + d.1) % 20) ((y + d.2) % 10) = some CELL_ALIVE)) :=
  get_living_neighbors_eq b hb x y hx0 hx hy0 hy

/-- Witness of C3 at the corner `(0, 0)` of the board that holds the glider of `main`. -/
theorem get_living_neighbors_counts_torus_witness :
    (board_with (glider_cells 2 2)).length = 200 ∧ (0 : Int) ≤ 0 ∧ (0 : Int) < 20 ∧
      (0 : Int) ≤ 0 ∧ (0 : Int) < 10 ∧
      get_living_neighbors (board_with (glider_cells 2 2)) 0 0 =
        some (([(0, -1), (0, 1), (-1, 0), (1, 0), (-1, -1), (1, -1), (-1, 1), (1, 1)] :
            List (Int × Int)).countP
          fun d => decide (cell_at (board_with (glider_cells 2 2)) ((0 + d.1) % 20)
            ((0 + d.2) % 10) = some CELL_ALIVE)) :=
  ⟨board_of_length _, by decide, by decide, by decide, by decide,
    get_living_neighbors_counts_torus _ (board_of_length _) 0 0 (by decide) (by decide)
      (by decide) (by decide)⟩

/-- C4, the code at a failing input: for `(21, 1)`, the coordinates that
`add_glider(board, 19, 0)` passes to `wrap_coords` in its second iteration, the
macro yields `(0, 1)` and the slot 20, while the positive modulo is `(1, 1)`, slot
21; for `(-2, 0)` it yields `(19, 0)`, not `(18, 0)`. -/
theorem wrap_coords_two_steps_out :
    wrap_coords 21 1 = (0, 1) ∧
      coord_to_idx (wrap_coords 21 1).1 (wrap_coords 21 1).2 = 20 ∧
      add_glider_index 19 0 1 = 20 ∧
      coord_to_idx (((21 : Int) % 20 + 20) % 20) (((1 : Int) % 10 + 10) % 10) = 21 ∧
      wrap_coords (-2) 0 = (19, 0) ∧
      ((((-2 : Int) % 20 + 20) % 20, ((0 : Int) % 10 + 10) % 10) : Int × Int) = (18, 0) := by
  decide

/-- C5: for every board of 200 cells, all integers `x`, `y` and every direction
value (the eight directions and any other value of the enumeration's integer), the
index that `check_neighbor` computes lies in `[0, 200)` and its read succeeds; and
each index that `add_glider` writes for the origin `(x, y)` lies in `[0, 200)`, so
that `add_glider` succeeds. -/
theorem board_access_in_bounds (board : Board) (hb : board.length = 200) (x y : Int) :
    (∀ direction : dir_t,
        0 ≤ check_neighbor_index x y direction ∧ check_neighbor_index x y direction < 200 ∧
          (check_neighbor board x y direction).isSome = true) ∧
      (∀ i : Nat, 0 ≤ add_glider_index x y i ∧ add_glider_index x y i < 200) ∧
      (add_glider board x y).isSome = true := by
  refine ⟨?_, ?_, ?_⟩
  · intro direction
    have h : 0 ≤ check_neighbor_index x y direction ∧
        check_neighbor_index x y direction < 200 := wrap_coords_index _ _
    refine ⟨h.1, h.2, ?_⟩
    unfold check_neighbor
    rw [read_of_lt board _ h.1 (by omega)]
    rfl
  · intro i
    exact wrap_coords_index _ _
  · rw [add_glider_eq board hb x y]
    rfl

/-- Witness of C5 at the extreme values of a 32-bit `int`. -/
theorem board_access_in_bounds_witness :
    empty_board.length = 200 ∧
      ((∀ direction : dir_t,
          0 ≤ check_neighbor_index 2147483647 (-2147483648) direction ∧
            check_neighbor_index 2147483647 (-2147483648) direction < 200 ∧
            (check_neighbor empty_board 2147483647 (-2147483648) direction).isSome = true) ∧
        (∀ i : Nat, 0 ≤ add_glider_index 2147483647 (-2147483648) i ∧
          add_glider_index 2147483647 (-2147483648) i < 200) ∧
        (add_glider empty_board 2147483647 (-2147483648)).isSome = true) :=
  ⟨List.length_replicate 200 CELL_DEAD,
    board_access_in_bounds empty_board (List.length_replicate 200 CELL_DEAD) 2147483647
      (-2147483648)⟩

set_option maxRecDepth 1000000 in
/-- C6, the code at a failing input: `add_glider` at the in-range origin `(19, 0)` of
the all-Dead board leaves exactly `(0, 0)`, `(0, 1)`, `(19, 2)` and `(0, 2)` Alive;
the cell `((19 + 2) mod 20, (0 + 1) mod 10) = (1, 1)` stays Dead and the cell
`(0, 1)`, which is none of the five cells, becomes Alive. -/
theorem add_glider_at_right_edge :
    add_glider empty_board 19 0 = some (board_with [(0, 0), (0, 1), (19, 2), (0, 2)]) ∧
      cell_at (board_with [(0, 0), (0, 1), (19, 2), (0, 2)]) 1 1 = some CELL_DEAD ∧
      cell_at (board_with [(0, 0), (0, 1), (19, 2), (0, 2)]) 0 1 = some CELL_ALIVE ∧
      cell_at empty_board 0 1 = some CELL_DEAD ∧
      ((0 : Int), (1 : Int)) ∉
        [(((19 : Int) + 1) % 20, ((0 : Int) + 0) % 10), ((19 + 2) % 20, (0 + 1) % 10),
          ((19 + 0) % 20, (0 + 2) % 10), ((19 + 1) % 20, (0 + 2) % 10),
          ((19 + 2) % 20, (0 + 2) % 10)] := by
  decide!

/-- C7: from the initial state of `main` (the all-Dead board with
`add_glider(cur_board, 2, 2)`), four generation updates give the all-Dead board with
`add_glider` applied at `(3, 3)`: the board whose only Alive cells are `(4, 3)`,
`(5, 4)`, `(3, 5)`, `(4, 5)` and `(5, 5)`. -/
theorem glider_translates_after_four_generations :
    initial_board.bind (generations 4) = add_glider empty_board 3 3 ∧
      add_glider empty_board 3 3 = some (board_with [(4, 3), (5, 4), (3, 5), (4, 5), (5, 5)]) := by
  rw [initial_board_eq, Option.some_bind, glider_four_steps, add_glider_3_3]
  exact ⟨rfl, rfl⟩

/-- C8: for every centre `(cx, cy)` on the board, one generation update turns the
board whose only Alive cells are the horizontal line `((cx - 1) mod 20, cy)`,
`(cx, cy)`, `((cx + 1) mod 20, cy)` into the board whose only Alive cells are the
vertical line `(cx, (cy - 1) mod 10)`, `(cx, cy)`, `(cx, (cy + 1) mod 10)`, and two
generation updates give the horizontal-line board again. -/
theorem blinker_period_two (cx cy : Int) (hcx0 : 0 ≤ cx) (hcx : cx < 20) (hcy0 : 0 ≤ cy)
    (hcy : cy < 10) :
    generation_update (horizontal_line cx cy) = some (vertical_line cx cy) ∧
      generations 2 (horizontal_line cx cy) = some (horizontal_line cx cy) := by
  refine ⟨horizontal_step cx cy hcx0 hcx hcy0 hcy, ?_⟩
  rw [generations_succ, horizontal_step cx cy hcx0 hcx hcy0 hcy, Option.some_bind,
    generations_succ, vertical_step cx cy hcx0 hcx hcy0 hcy, Option.some_bind]
  rfl

/-- Witness of C8 at the centre `(5, 5)`. -/
theorem blinker_period_two_witness :
    (0 : Int) ≤ 5 ∧ (5 : Int) < 20 ∧ (0 : Int) ≤ 5 ∧ (5 : Int) < 10 ∧
      generation_update (horizontal_line 5 5) = some (vertical_line 5 5) ∧
      generations 2 (horizontal_line 5 5) = some (horizontal_line 5 5) :=
  ⟨by decide, by decide, by decide, by decide,
    blinker_period_two 5 5 (by decide) (by decide) (by decide) (by decide)⟩

/-- C9: for every board `b` of 200 cells and every list of coordinates that holds
each of the 200 in-range coordinates exactly once, the calls
`apply_rules(cur, old, x, y)` in the order of the list, from `cur = old = b`, succeed
and give the board that the generation update of `main` gives. -/
theorem traversal_order_irrelevant (b : Board) (hb : b.length = 200)
    (order : List (Int × Int)) (hn : order.Nodup)
    (hall : ∀ p : Int × Int, p ∈ order ↔ in_range p) :
    ∃ b2, apply_rules_over b order b = some b2 ∧ generation_update b = some b2 :=
  ⟨next_board b, apply_rules_over_all b hb order hn hall, generation_update_eq b hb⟩

/-- Witness of C9: the reverse of the row-major order, on the glider board. -/
theorem traversal_order_irrelevant_witness :
    (board_with (glider_cells 2 2)).length = 200 ∧ row_major.reverse.Nodup ∧
      (∀ p : Int × Int, p ∈ row_major.reverse ↔ in_range p) ∧
      ∃ b2, apply_rules_over (board_with (glider_cells 2 2)) row_major.reverse
          (board_with (glider_cells 2 2)) = some b2 ∧
        generation_update (board_with (glider_cells 2 2)) = some b2 :=
  ⟨board_of_length _, List.nodup_reverse.mpr nodup_row_major,
    fun p => List.mem_reverse.trans (mem_row_major p),
    traversal_order_irrelevant _ (board_of_length _) row_major.reverse
      (List.nodup_reverse.mpr nodup_row_major)
      (fun p => List.mem_reverse.trans (mem_row_major p))⟩

/-- C10: for every board of 200 cells in which the cell at one in-range `(x0, y0)` is
Alive and every other cell is Dead, the generation update succeeds and every cell of
its result is Dead. -/
theorem lone_cell_dies (b : Board) (hb : b.length = 200) (x0 y0 : Int) (h1 : 0 ≤ x0)
    (h2 : x0 < 20) (h3 : 0 ≤ y0) (h4 : y0 < 10)
    (halive : cell_at b x0 y0 = some CELL_ALIVE)
    (hdead : ∀ x y : Int, 0 ≤ x → x < 20 → 0 ≤ y → y < 10 → (x, y) ≠ (x0, y0) →
      cell_at b x y = some CELL_DEAD) :
    ∃ b2, generation_update b = some b2 ∧ b2.length = 200 ∧
      ∀ x y : Int, 0 ≤ x → x < 20 → 0 ≤ y → y < 10 → cell_at b2 x y = some CELL_DEAD := by
  have e : b = board_with [(x0, y0)] := by
    apply board_eq_board_of b hb
    intro x y hx0 hx hy0 hy
    unfold alive_in
    by_cases h : (x, y) = (x0, y0)
    · rw [Prod.mk.injEq] at h
      rw [h.1, h.2, halive]
      simp
    · rw [hdead x y hx0 hx hy0 hy h]
      simp [h]
  rw [e]
  exact ⟨empty_board, single_cell_step x0 y0 h1 h2 h3 h4, List.length_replicate 200 CELL_DEAD,
    cell_at_empty_board⟩

/-- Witness of C10 with the corner cell `(0, 0)` Alive. -/
theorem lone_cell_dies_witness :
    (board_with [(0, 0)]).length = 200 ∧
      cell_at (board_with [(0, 0)]) 0 0 = some CELL_ALIVE ∧
      (∀ x y : Int, 0 ≤ x → x < 20 → 0 ≤ y → y < 10 → (x, y) ≠ (0, 0) →
        cell_at (board_with [(0, 0)]) x y = some CELL_DEAD) ∧
      ∃ b2, generation_update (board_with [(0, 0)]) = some b2 ∧ b2.length = 200 ∧
        ∀ x y : Int, 0 ≤ x → x < 20 → 0 ≤ y → y < 10 → cell_at b2 x y = some CELL_DEAD :=
  have ha : cell_at (board_with [(0, 0)]) 0 0 = some CELL_ALIVE :=
    (cell_at_board_with _ 0 0 (by decide) (by decide) (by decide) (by decide)).mpr
      (List.mem_singleton.mpr rfl)
  have hd : ∀ x y : Int, 0 ≤ x → x < 20 → 0 ≤ y → y < 10 → (x, y) ≠ (0, 0) →
      cell_at (board_with [(0, 0)]) x y = some CELL_DEAD := by
    intro x y hx0 hx hy0 hy hne
    unfold board_with
    rw [cell_at_board_of _ x y hx0 hx hy0 hy]
    unfold alive_in
    have hmem : (x, y) ∉ [((0 : Int), (0 : Int))] := fun h => hne (List.mem_singleton.mp h)
    rw [decide_eq_false hmem]
    rfl
  ⟨board_of_length _, ha, hd,
    lone_cell_dies _ (board_of_length _) 0 0 (by decide) (by decide) (by decide) (by decide)
      ha hd⟩

/-! ## Helper lemmas for the claims on counts, indices and wrapping -/

theorem all_alive_life (x y : Int) : life (fun _ _ => true) x y = false := by
  unfold life
  rfl

theorem all_alive_step :
    generation_update (board_of fun _ _ => true) = some empty_board := by
  rw [generation_update_board_of, ← board_of_false,
    board_of_ext (life fun _ _ => true) (fun _ _ => false) (fun _ _ => all_alive_life _ _)]

theorem torus_neighbors_le (b : Board) (x y : Int) : torus_neighbors b x y ≤ 8 := by
  unfold torus_neighbors
  exact List.countP_le_length _

theorem wrap_coords_tmod (x y : Int) (hx0 : -1 ≤ x) (hx : x ≤ 20) (hy0 : -1 ≤ y)
    (hy : y ≤ 10) :
    wrap_coords x y =
      (Int.tmod (Int.tmod x 20 + 20) 20, Int.tmod (Int.tmod y 10 + 10) 10) := by
  have e := wrap_coords_near x y hx0 hx hy0 hy
  rw [e]
  refine Prod.ext ?_ ?_
  · show x % 20 = Int.tmod (Int.tmod x 20 + 20) 20
    interval_cases x <;> rfl
  · show y % 10 = Int.tmod (Int.tmod y 10 + 10) 10
    interval_cases y <;> rfl

theorem move_near (x y : Int) (hx0 : 0 ≤ x) (hx : x < 20) (hy0 : 0 ≤ y) (hy : y < 10)
    (k : Nat) (hk : k < 8) :
    -1 ≤ (move x y k).1 ∧ (move x y k).1 ≤ 20 ∧ -1 ≤ (move x y k).2 ∧ (move x y k).2 ≤ 10 := by
  rw [move_eq x y hx0 hx hy0 hy k hk]
  have hk8 : k = 0 ∨ k = 1 ∨ k = 2 ∨ k = 3 ∨ k = 4 ∨ k = 5 ∨ k = 6 ∨ k = 7 := by omega
  rcases hk8 with h | h | h | h | h | h | h | h <;> subst h <;>
    simp [neighbor_offsets] <;> omega

/-! ## The claims on counts, indices and wrapping -/

/-- C11: for every board of 200 cells in which every cell is Alive,
`get_living_neighbors` returns 8 at every in-range `(x, y)`, edges and corners
included, and the generation update succeeds and leaves every cell Dead. -/
theorem all_alive_board_dies (b : Board) (hb : b.length = 200)
    (hall : ∀ x y : Int, 0 ≤ x → x < 20 → 0 ≤ y → y < 10 → cell_at b x y = some CELL_ALIVE) :
    (∀ x y : Int, 0 ≤ x → x < 20 → 0 ≤ y → y < 10 → get_living_neighbors b x y = some 8) ∧
      ∃ b2, generation_update b = some b2 ∧ b2.length = 200 ∧
        ∀ x y : Int, 0 ≤ x → x < 20 → 0 ≤ y → y < 10 → cell_at b2 x y = some CELL_DEAD := by
  have e : b = board_of fun _ _ => true := by
    apply board_eq_board_of b hb
    intro x y hx0 hx hy0 hy
    rw [hall x y hx0 hx hy0 hy]
    rfl
  rw [e]
  refine ⟨?_, empty_board, all_alive_step, List.length_replicate 200 CELL_DEAD,
    cell_at_empty_board⟩
  intro x y hx0 hx hy0 hy
  rw [get_living_neighbors_eq _ (board_of_length _) x y hx0 hx hy0 hy,
    torus_neighbors_board_of]
  rfl

/-- Witness of C11 on the board of 200 Alive cells. -/
theorem all_alive_board_dies_witness :
    (board_of fun _ _ => true).length = 200 ∧
      (∀ x y : Int, 0 ≤ x → x < 20 → 0 ≤ y → y < 10 →
        cell_at (board_of fun _ _ => true) x y = some CELL_ALIVE) ∧
      ((∀ x y : Int, 0 ≤ x → x < 20 → 0 ≤ y → y < 10 →
          get_living_neighbors (board_of fun _ _ => true) x y = some 8) ∧
        ∃ b2, generation_update (board_of fun _ _ => true) = some b2 ∧ b2.length = 200 ∧
          ∀ x y : Int, 0 ≤ x → x < 20 → 0 ≤ y → y < 10 → cell_at b2 x y = some CELL_DEAD) :=
  ⟨board_of_length _, fun x y hx0 hx hy0 hy => cell_at_board_of _ x y hx0 hx hy0 hy,
    all_alive_board_dies _ (board_of_length _)
      (fun x y hx0 hx hy0 hy => cell_at_board_of _ x y hx0 hx hy0 hy)⟩

/-- C12: for every board of 200 cells and every in-range `(x, y)`,
`get_living_neighbors(board, x, y)` returns a value `n` with `0 <= n <= 8`. -/
theorem neighbor_count_bound (board : Board) (hb : board.length = 200) (x y : Int)
    (hx0 : 0 ≤ x) (hx : x < 20) (hy0 : 0 ≤ y) (hy : y < 10) :
    ∃ n : Nat, get_living_neighbors board x y = some n ∧ 0 ≤ n ∧ n ≤ 8 :=
  ⟨torus_neighbors board x y, get_living_neighbors_eq board hb x y hx0 hx hy0 hy,
    Nat.zero_le _, torus_neighbors_le board x y⟩

/-- Witness of C12 at the corner `(19, 9)` of the board of 200 Alive cells. -/
theorem neighbor_count_bound_witness :
    (board_of fun _ _ => true).length = 200 ∧ (0 : Int) ≤ 19 ∧ (19 : Int) < 20 ∧
      (0 : Int) ≤ 9 ∧ (9 : Int) < 10 ∧
      ∃ n : Nat, get_living_neighbors (board_of fun _ _ => true) 19 9 = some n ∧ 0 ≤ n ∧ n ≤ 8 :=
  ⟨board_of_length _, by decide, by decide, by decide, by decide,
    neighbor_count_bound _ (board_of_length _) 19 9 (by decide) (by decide) (by decide)
      (by decide)⟩

/-- C13: on in-range coordinates `coord_to_idx` is a bijection onto the slots: the
index of an in-range `(x, y)` is `y * 20 + x` and lies in `[0, 200)`, an in-range
coordinate with the same index is the same coordinate, and every index in
`[0, 200)` is the index of some in-range coordinate. -/
theorem coord_to_idx_bijective (x y : Int) (hx0 : 0 ≤ x) (hx : x < 20) (hy0 : 0 ≤ y)
    (hy : y < 10) :
    (coord_to_idx x y = y * 20 + x ∧ 0 ≤ coord_to_idx x y ∧ coord_to_idx x y < 200) ∧
      (∀ x2 y2 : Int, 0 ≤ x2 → x2 < 20 → 0 ≤ y2 → y2 < 10 →
        coord_to_idx x2 y2 = coord_to_idx x y → x2 = x ∧ y2 = y) ∧
      (∀ i : Int, 0 ≤ i → i < 200 →
        ∃ x2 y2 : Int, 0 ≤ x2 ∧ x2 < 20 ∧ 0 ≤ y2 ∧ y2 < 10 ∧ coord_to_idx x2 y2 = i) := by
  have e := coord_to_idx_small x y hx0 hx hy0 hy
  refine ⟨⟨e, by omega, by omega⟩, ?_, ?_⟩
  · intro x2 y2 h1 h2 h3 h4 h
    rw [e, coord_to_idx_small x2 y2 h1 h2 h3 h4] at h
    omega
  · intro i hi0 hi
    refine ⟨i % 20, i / 20, by omega, by omega, by omega, by omega, ?_⟩
    rw [coord_to_idx_small _ _ (by omega) (by omega) (by omega) (by omega)]
    omega

/-- Witness of C13 at the last coordinate `(19, 9)`. -/
theorem coord_to_idx_bijective_witness :
    (0 : Int) ≤ 19 ∧ (19 : Int) < 20 ∧ (0 : Int) ≤ 9 ∧ (9 : Int) < 10 ∧
      ((coord_to_idx 19 9 = 9 * 20 + 19 ∧ 0 ≤ coord_to_idx 19 9 ∧ coord_to_idx 19 9 < 200) ∧
        (∀ x2 y2 : Int, 0 ≤ x2 → x2 < 20 → 0 ≤ y2 → y2 < 10 →
          coord_to_idx x2 y2 = coord_to_idx 19 9 → x2 = 19 ∧ y2 = 9) ∧
        (∀ i : Int, 0 ≤ i → i < 200 →
          ∃ x2 y2 : Int, 0 ≤ x2 ∧ x2 < 20 ∧ 0 ≤ y2 ∧ y2 < 10 ∧ coord_to_idx x2 y2 = i)) :=
  ⟨by decide, by decide, by decide, by decide,
    coord_to_idx_bijective 19 9 (by decide) (by decide) (by decide) (by decide)⟩

/-- C15: for all integers `x` with `-1 <= x <= 20` and `y` with `-1 <= y <= 10`,
`wrap_coords` yields `(((x mod 20) + 20) mod 20, ((y mod 10) + 10) mod 10)`, with
`mod` read as the non-negative remainder or as the truncating remainder of C; so
`-1` goes to `n - 1`, `n` to `0`, and a coordinate in `[0, n - 1]` is unchanged.
When `(x, y)` is in range, the coordinates that `check_neighbor` passes to
`wrap_coords` for each of the eight directions are within these bounds and are
wrapped to the same full modular value. -/
theorem wrap_coords_one_step (x y : Int) (hx0 : -1 ≤ x) (hx : x ≤ 20) (hy0 : -1 ≤ y)
    (hy : y ≤ 10) :
    wrap_coords x y = ((x % 20 + 20) % 20, (y % 10 + 10) % 10) ∧
      wrap_coords x y =
        (Int.tmod (Int.tmod x 20 + 20) 20, Int.tmod (Int.tmod y 10 + 10) 10) ∧
      (x = -1 → (wrap_coords x y).1 = 20 - 1) ∧ (x = 20 → (wrap_coords x y).1 = 0) ∧
      (0 ≤ x → x ≤ 20 - 1 → (wrap_coords x y).1 = x) ∧
      (y = -1 → (wrap_coords x y).2 = 10 - 1) ∧ (y = 10 → (wrap_coords x y).2 = 0) ∧
      (0 ≤ y → y ≤ 10 - 1 → (wrap_coords x y).2 = y) ∧
      (0 ≤ x → x < 20 → 0 ≤ y → y < 10 → ∀ direction : dir_t, direction < 8 →
        wrap_coords (move x y direction).1 (move x y direction).2 =
          (((move x y direction).1 % 20 + 20) % 20,
            ((move x y direction).2 % 10 + 10) % 10)) := by
  have e := wrap_coords_near x y hx0 hx hy0 hy
  have e1 : (x % 20 + 20) % 20 = x % 20 := by omega
  have e2 : (y % 10 + 10) % 10 = y % 10 := by omega
  refine ⟨by rw [e, e1, e2], wrap_coords_tmod x y hx0 hx hy0 hy, ?_, ?_, ?_, ?_, ?_, ?_, ?_⟩
  · intro h; rw [e]; show x % 20 = 20 - 1; omega
  · intro h; rw [e]; show x % 20 = 0; omega
  · intro h1 h2; rw [e]; show x % 20 = x; omega
  · intro h; rw [e]; show y % 10 = 10 - 1; omega
  · intro h; rw [e]; show y % 10 = 0; omega
  · intro h1 h2; rw [e]; show y % 10 = y; omega
  · intro h1 h2 h3 h4 direction hd
    obtain ⟨m1, m2, m3, m4⟩ := move_near x y h1 h2 h3 h4 direction hd
    rw [wrap_coords_near _ _ m1 m2 m3 m4]
    refine Prod.ext ?_ ?_ <;> dsimp only <;> omega

/-- Witness of C15 at `(-1, 10)`, one step outside two edges. -/
theorem wrap_coords_one_step_witness :
    (-1 : Int) ≤ -1 ∧ (-1 : Int) ≤ 20 ∧ (-1 : Int) ≤ 10 ∧ (10 : Int) ≤ 10 ∧
      wrap_coords (-1) 10 = (19, 0) ∧
      wrap_coords (-1) 10 = (((-1 : Int) % 20 + 20) % 20, ((10 : Int) % 10 + 10) % 10) :=
  ⟨by decide, by decide, by decide, by decide, by decide,
    (wrap_coords_one_step (-1) 10 (by decide) (by decide) (by decide) (by decide)).1⟩

/-! ## Helper lemmas for the claims on `apply_rules` and on a cell's own state -/

theorem rule_rule (c : cell_t) (n : Nat) : rule (rule c n) n = rule c n := by
  unfold rule
  cases c
  · by_cases h : n = 3
    · simp [h]
    · simp [h]
  · by_cases h : n < 2 ∨ n > 3
    · have h3 : n ≠ 3 := by omega
      simp [h, h3]
    · simp [h]

theorem getD_set_self (b : Board) (i : Nat) (v : cell_t) (h : i < b.length) :
    (b.set i v).getD i CELL_DEAD = v := by
  simp [List.getElem?_set_self h]

theorem offset_not_self (x y : Int) (d : Int × Int) (hd : d ∈ neighbor_offsets) :
    ((x + d.1) % 20, (y + d.2) % 10) ≠ (x, y) := by
  intro h
  rw [Prod.mk.injEq] at h
  simp only [neighbor_offsets, List.mem_cons, List.mem_singleton, List.not_mem_nil,
    or_false] at hd
  rcases hd with r | r | r | r | r | r | r | r <;> subst r <;> dsimp only at h <;> omega

/-! ## The claims on `apply_rules` and on a cell's own state -/

/-- C18: for boards `current` and `old` of 200 cells and in-range `(x, y)`, the call
`apply_rules(current, old, x, y)` succeeds, and the same call on its result succeeds
and leaves that result unchanged. -/
theorem apply_rules_idempotent (current old : Board) (hc : current.length = 200)
    (ho : old.length = 200) (x y : Int) (hx0 : 0 ≤ x) (hx : x < 20) (hy0 : 0 ≤ y)
    (hy : y < 10) :
    ∃ c1, apply_rules current old x y = some c1 ∧ apply_rules c1 old x y = some c1 := by
  have hlt : (y * 20 + x).toNat < current.length := by omega
  refine ⟨_, apply_rules_eq current old hc ho x y hx0 hx hy0 hy, ?_⟩
  rw [apply_rules_eq _ old (by rw [List.length_set]; exact hc) ho x y hx0 hx hy0 hy,
    getD_set_self current _ _ hlt, rule_rule, List.set_set]

/-- Witness of C18 on two boards that differ at `(1, 1)`. -/
theorem apply_rules_idempotent_witness :
    (board_with [(1, 1)]).length = 200 ∧ (board_with [(0, 1), (2, 1)]).length = 200 ∧
      ∃ c1, apply_rules (board_with [(1, 1)]) (board_with [(0, 1), (2, 1)]) 1 1 = some c1 ∧
        apply_rules c1 (board_with [(0, 1), (2, 1)]) 1 1 = some c1 :=
  ⟨board_of_length _, board_of_length _,
    apply_rules_idempotent _ _ (board_of_length _) (board_of_length _) 1 1 (by decide)
      (by decide) (by decide) (by decide)⟩

/-- C19: for boards `current` and `old` of 200 cells and in-range `(x, y)`, the call
`apply_rules(current, old, x, y)` succeeds with a board of the same length in which
every slot other than `y * 20 + x` holds what it held in `current`, so that every
other in-range cell keeps its state; `old` is only read. -/
theorem apply_rules_frame (current old : Board) (hc : current.length = 200)
    (ho : old.length = 200) (x y : Int) (hx0 : 0 ≤ x) (hx : x < 20) (hy0 : 0 ≤ y)
    (hy : y < 10) :
    ∃ c1, apply_rules current old x y = some c1 ∧ c1.length = current.length ∧
      (∀ j : Nat, j ≠ (y * 20 + x).toNat → c1[j]? = current[j]?) ∧
      (∀ x2 y2 : Int, 0 ≤ x2 → x2 < 20 → 0 ≤ y2 → y2 < 10 → (x2, y2) ≠ (x, y) →
        cell_at c1 x2 y2 = cell_at current x2 y2) := by
  refine ⟨_, apply_rules_eq current old hc ho x y hx0 hx hy0 hy, List.length_set _ _ _, ?_, ?_⟩
  · intro j hj
    exact List.getElem?_set_ne (Ne.symm hj)
  · intro x2 y2 h1 h2 h3 h4 hne
    have hidx : (y * 20 + x).toNat ≠ (y2 * 20 + x2).toNat := by
      intro h
      apply hne
      apply Prod.ext <;> dsimp only <;> omega
    unfold cell_at read
    rw [coord_to_idx_small x2 y2 h1 h2 h3 h4, if_pos (by omega), if_pos (by omega)]
    exact List.getElem?_set_ne hidx

/-- Witness of C19 on two boards that differ at `(1, 1)`. -/
theorem apply_rules_frame_witness :
    (board_with [(1, 1)]).length = 200 ∧ (board_with [(0, 1), (2, 1)]).length = 200 ∧
      ∃ c1, apply_rules (board_with [(1, 1)]) (board_with [(0, 1), (2, 1)]) 1 1 = some c1 ∧
        c1.length = (board_with [(1, 1)]).length ∧
        (∀ j : Nat, j ≠ ((1 : Int) * 20 + 1).toNat → c1[j]? = (board_with [(1, 1)])[j]?) ∧
        (∀ x2 y2 : Int, 0 ≤ x2 → x2 < 20 → 0 ≤ y2 → y2 < 10 → (x2, y2) ≠ (1, 1) →
          cell_at c1 x2 y2 = cell_at (board_with [(1, 1)]) x2 y2) :=
  ⟨board_of_length _, board_of_length _,
    apply_rules_frame _ _ (board_of_length _) (board_of_length _) 1 1 (by decide)
      (by decide) (by decide) (by decide)⟩

/-- C20: for every in-range `(x, y)` and boards `b` and `b2` of 200 cells that agree
on every in-range cell other than `(x, y)`, `get_living_neighbors(b, x, y)` and
`get_living_neighbors(b2, x, y)` return the same count. -/
theorem neighbors_ignore_own_cell (b b2 : Board) (hb : b.length = 200)
    (hb2 : b2.length = 200) (x y : Int) (hx0 : 0 ≤ x) (hx : x < 20) (hy0 : 0 ≤ y)
    (hy : y < 10)
    (hagree : ∀ x2 y2 : Int, 0 ≤ x2 → x2 < 20 → 0 ≤ y2 → y2 < 10 → (x2, y2) ≠ (x, y) →
      cell_at b x2 y2 = cell_at b2 x2 y2) :
    ∃ n : Nat, get_living_neighbors b x y = some n ∧ get_living_neighbors b2 x y = some n := by
  refine ⟨torus_neighbors b x y, get_living_neighbors_eq b hb x y hx0 hx hy0 hy, ?_⟩
  rw [get_living_neighbors_eq b2 hb2 x y hx0 hx hy0 hy]
  congr 1
  unfold torus_neighbors
  apply List.countP_congr
  intro d hd
  rw [hagree _ _ (by omega) (by omega) (by omega) (by omega)
    (offset_not_self x y d hd)]

/-- Witness of C20: the board with only `(1, 1)` Alive and the all-Dead board, which
differ exactly at `(1, 1)`. -/
theorem neighbors_ignore_own_cell_witness :
    (board_with [(1, 1)]).length = 200 ∧ empty_board.length = 200 ∧
      (∀ x2 y2 : Int, 0 ≤ x2 → x2 < 20 → 0 ≤ y2 → y2 < 10 → (x2, y2) ≠ (1, 1) →
        cell_at (board_with [(1, 1)]) x2 y2 = cell_at empty_board x2 y2) ∧
      ∃ n : Nat, get_living_neighbors (board_with [(1, 1)]) 1 1 = some n ∧
        get_living_neighbors empty_board 1 1 = some n :=
  have hd : ∀ x2 y2 : Int, 0 ≤ x2 → x2 < 20 → 0 ≤ y2 → y2 < 10 → (x2, y2) ≠ (1, 1) →
      cell_at (board_with [(1, 1)]) x2 y2 = cell_at empty_board x2 y2 := by
    intro x2 y2 h1 h2 h3 h4 hne
    rw [cell_at_empty_board x2 y2 h1 h2 h3 h4]
    unfold board_with
    rw [cell_at_board_of _ x2 y2 h1 h2 h3 h4]
    unfold alive_in
    have hmem : (x2, y2) ∉ [((1 : Int), (1 : Int))] := fun h => hne (List.mem_singleton.mp h)
    rw [decide_eq_false hmem]
    rfl
  ⟨board_of_length _, List.length_replicate 200 CELL_DEAD, hd,
    neighbors_ignore_own_cell _ _ (board_of_length _) (List.length_replicate 200 CELL_DEAD)
      1 1 (by decide) (by decide) (by decide) (by decide) hd⟩

/-! ## The renderer -/

theorem print_row_cells (b : Board) (hb : b.length = 200) (y : Nat) (hy : y < 10)
    (xs : List Nat) (hxs : ∀ x ∈ xs, x < 20) (out : List Char) :
    xs.foldlM
        (fun out (x : Nat) =>
          (b[coord_to_idx_size x y]?).map fun c =>
            if y ≠ 19 then out ++ [printable_state c] ++ [' ']
            else out ++ [printable_state c])
        out =
      some (out ++ xs.flatMap fun (x : Nat) =>
        [printable_state (b.getD (y * 20 + x) CELL_DEAD), ' ']) := by
  induction xs generalizing out with
  | nil => simp
  | cons x xs ih =>
    have hx : x < 20 := hxs x (List.mem_cons_self x xs)
    have hxs2 : ∀ z ∈ xs, z < 20 := fun z hz => hxs z (List.mem_cons_of_mem x hz)
    have hlt : y * 20 + x < b.length := by omega
    have hy19 : y ≠ 19 := by omega
    rw [List.foldlM_cons]
    unfold coord_to_idx_size
    rw [List.getElem?_eq_getElem hlt]
    simp only [Option.map_some', Option.bind_eq_bind, Option.some_bind]
    rw [if_pos hy19]
    have h := ih hxs2 (out ++ [printable_state b[y * 20 + x]] ++ [' '])
    unfold coord_to_idx_size at h
    rw [h, List.flatMap_cons, List.getD_eq_getElem b CELL_DEAD hlt]
    simp

theorem print_rows (b : Board) (hb : b.length = 200) (ys : List Nat)
    (hys : ∀ y ∈ ys, y < 10) (out : List Char) :
    ys.foldlM
        (fun out (y : Nat) =>
          ((List.range 20).foldlM
            (fun out (x : Nat) =>
              (b[coord_to_idx_size x y]?).map fun c =>
                if y ≠ 19 then out ++ [printable_state c] ++ [' ']
                else out ++ [printable_state c])
            (out ++ ['|'])).map fun out => out ++ puts ['|', '\n'])
        out =
      some (out ++ ys.flatMap fun (y : Nat) => row_line b y ++ ['\n']) := by
  induction ys generalizing out with
  | nil => simp
  | cons y ys ih =>
    have hy : y < 10 := hys y (List.mem_cons_self y ys)
    have hys2 : ∀ z ∈ ys, z < 10 := fun z hz => hys z (List.mem_cons_of_mem y hz)
    rw [List.foldlM_cons,
      print_row_cells b hb y hy (List.range 20) (fun x hx => List.mem_range.mp hx)]
    simp only [Option.map_some', Option.bind_eq_bind, Option.some_bind]
    rw [ih hys2, List.flatMap_cons]
    unfold row_line puts
    simp

theorem print_board_eq (b : Board) (hb : b.length = 200) :
    print_board b = some ((List.range 10).flatMap fun (y : Nat) => row_line b y ++ ['\n']) := by
  unfold print_board
  rw [print_rows b hb (List.range 10) (fun y hy => List.mem_range.mp hy)]
  rfl

set_option maxRecDepth 1000000 in
theorem display_lines_count : line_count (display_lines empty_board) = 10 := by
  decide!

set_option maxRecDepth 1000000 in
theorem print_board_lines_count :
    line_count ((List.range 10).flatMap fun (y : Nat) => row_line empty_board y ++ ['\n']) =
      20 := by
  decide!

/-- C14, counterexample: for the all-Dead board the output of `print_board` is not
the ten display lines of the claim: it has 20 line terminators, one empty line
after each of the ten row lines. -/
theorem print_board_blank_lines :
    print_board empty_board =
        some ((List.range 10).flatMap fun (y : Nat) => row_line empty_board y ++ ['\n']) ∧
      print_board empty_board ≠ some (display_lines empty_board) ∧
      line_count (display_lines empty_board) = 10 ∧
      line_count ((List.range 10).flatMap fun (y : Nat) => row_line empty_board y ++ ['\n']) =
        20 := by
  refine ⟨print_board_eq empty_board (List.length_replicate 200 CELL_DEAD), ?_,
    display_lines_count, print_board_lines_count⟩
  rw [print_board_eq empty_board (List.length_replicate 200 CELL_DEAD)]
  intro h
  have h2 := congrArg line_count (Option.some.inj h)
  rw [display_lines_count, print_board_lines_count] at h2
  exact absurd h2 (by decide)

/-- C14, amended: for every board of 200 cells `print_board` succeeds and emits, for
each row `y = 0 .. 9` in order, the display line of the row (`|`, then for
`x = 0 .. 19` the glyph of cell `(x, y)` followed by a space, then `|` and a line
terminator) followed by one empty line, and nothing else. -/
theorem print_board_output (board : Board) (hb : board.length = 200) :
    print_board board =
      some ((List.range 10).flatMap fun (y : Nat) => row_line board y ++ ['\n']) :=
  print_board_eq board hb

/-- Witness of the amended C14 on the board that holds the glider of `main`. -/
theorem print_board_output_witness :
    (board_with (glider_cells 2 2)).length = 200 ∧
      print_board (board_with (glider_cells 2 2)) =
        some ((List.range 10).flatMap fun (y : Nat) =>
          row_line (board_with (glider_cells 2 2)) y ++ ['\n']) :=
  ⟨board_of_length _, print_board_output _ (board_of_length _)⟩

/-! ## The pass without a snapshot -/

theorem in_place_over_eq (l : List (Int × Int)) (hl : ∀ p ∈ l, in_range p) (cur : Board)
    (hc : cur.length = 200) :
    l.foldlM (fun c p => apply_rules c c p.1 p.2) cur =
      some (l.foldl (fun c p => update_cell c c p) cur) := by
  induction l generalizing cur with
  | nil => rfl
  | cons p l ih =>
    obtain ⟨h1, h2, h3, h4⟩ := hl p (List.mem_cons_self p l)
    have hl2 : ∀ q ∈ l, in_range q := fun q hq => hl q (List.mem_cons_of_mem p hq)
    rw [List.foldlM_cons, apply_rules_eq cur cur hc hc p.1 p.2 h1 h2 h3 h4]
    simp only [Option.bind_eq_bind, Option.some_bind, List.foldl_cons]
    apply ih hl2
    rw [List.length_set]
    exact hc

theorem in_place_length (l : List (Int × Int)) (cur : Board) :
    (l.foldl (fun c p => update_cell c c p) cur).length = cur.length := by
  induction l generalizing cur with
  | nil => rfl
  | cons p l ih => rw [List.foldl_cons, ih, update_cell_length]

theorem in_place_frame (l : List (Int × Int)) (hl : ∀ p ∈ l, in_range p) (q : Int × Int)
    (hq : in_range q) (hql : q ∉ l) (cur : Board) :
    (l.foldl (fun c p => update_cell c c p) cur).getD (q.2 * 20 + q.1).toNat CELL_DEAD =
      cur.getD (q.2 * 20 + q.1).toNat CELL_DEAD := by
  induction l generalizing cur with
  | nil => rfl
  | cons p l ih =>
    obtain ⟨p1, p2, p3, p4⟩ := hl p (List.mem_cons_self p l)
    obtain ⟨q1, q2, q3, q4⟩ := hq
    have hl2 : ∀ r ∈ l, in_range r := fun r hr => hl r (List.mem_cons_of_mem p hr)
    have hqp : q ≠ p := fun h => hql (h ▸ List.mem_cons_self q l)
    have hql2 : q ∉ l := fun h => hql (List.mem_cons_of_mem p h)
    have hne : (p.2 * 20 + p.1).toNat ≠ (q.2 * 20 + q.1).toNat := by
      intro h
      apply hqp
      apply Prod.ext <;> omega
    rw [List.foldl_cons, ih hl2 hql2]
    unfold update_cell
    simp [List.getElem?_set_ne hne]

theorem in_place_update_eq_over (b : Board) :
    in_place_update b = row_major.foldlM (fun c p => apply_rules c c p.1 p.2) b := by
  unfold in_place_update row_major
  rw [foldlM_flatMap_rows]
  simp only [List.foldlM_map]

theorem row_major_take : row_major.take 3 = [(0, 0), (1, 0), (2, 0)] := by
  decide

theorem row_major_drop (p : Int × Int) (hp : p ∈ row_major.take 3) :
    p ∉ row_major.drop 3 := by
  have h : (row_major.take 3 ++ row_major.drop 3).Nodup := by
    rw [List.take_append_drop]
    exact nodup_row_major
  exact fun hd => (List.nodup_append.mp h).2.2 hp hd

set_option maxRecDepth 1000000 in
theorem in_place_first_cells :
    (([(0, 0), (1, 0), (2, 0)] : List (Int × Int)).foldl (fun c p => update_cell c c p)
      (horizontal_line 1 1)).getD 2 CELL_DEAD = CELL_ALIVE := by
  decide!

set_option maxRecDepth 1000000 in
theorem vertical_line_cell : cell_at (vertical_line 1 1) 2 0 = some CELL_DEAD := by
  decide!

/-- C16: on the board whose only Alive cells are the horizontal line `(0, 1)`,
`(1, 1)`, `(2, 1)`, the row-major pass without a snapshot succeeds and leaves the
cell `(2, 0)` Alive (it counts `(1, 0)`, which the pass has just made Alive), while
the generation update of the program gives the vertical line `(1, 0)`, `(1, 1)`,
`(1, 2)`, in which `(2, 0)` is Dead: the two results differ. -/
theorem in_place_update_differs :
    (horizontal_line 1 1).length = 200 ∧
      ∃ r1, in_place_update (horizontal_line 1 1) = some r1 ∧
        generation_update (horizontal_line 1 1) = some (vertical_line 1 1) ∧
        cell_at r1 2 0 = some CELL_ALIVE ∧
        cell_at (vertical_line 1 1) 2 0 = some CELL_DEAD ∧
        r1 ≠ vertical_line 1 1 := by
  have hb : (horizontal_line 1 1).length = 200 := board_of_length _
  have hr : ∀ p ∈ row_major, in_range p := fun p hp => (mem_row_major p).mp hp
  have hcell : cell_at (row_major.foldl (fun c p => update_cell c c p) (horizontal_line 1 1))
      2 0 = some CELL_ALIVE := by
    rw [cell_at_eq_getD _ (by rw [in_place_length]; exact hb) 2 0 (by decide) (by decide)
      (by decide) (by decide)]
    have hsplit : row_major = row_major.take 3 ++ row_major.drop 3 :=
      (List.take_append_drop 3 row_major).symm
    have hmem : ((2, 0) : Int × Int) ∈ row_major.take 3 := by
      rw [row_major_take]
      decide
    have hframe := in_place_frame (row_major.drop 3)
      (fun p hp => hr p (List.mem_of_mem_drop hp)) (2, 0) (by decide)
      (row_major_drop (2, 0) hmem)
      ((row_major.take 3).foldl (fun c p => update_cell c c p) (horizontal_line 1 1))
    rw [hsplit, List.foldl_append]
    have e : (((0 : Int) * 20 + 2).toNat) = 2 := by decide
    rw [e] at hframe ⊢
    rw [hframe, row_major_take, in_place_first_cells]
  refine ⟨hb, _, ?_, horizontal_step 1 1 (by decide) (by decide) (by decide) (by decide),
    hcell, vertical_line_cell, ?_⟩
  · rw [in_place_update_eq_over, in_place_over_eq row_major hr _ hb]
  · intro h
    rw [h, vertical_line_cell] at hcell
    exact absurd hcell (by decide)

/-! ## Toroidal translation of boards -/

theorem board_eq_alive_at (b : Board) (hb : b.length = 200) : b = board_of (alive_at b) := by
  apply board_eq_board_of b hb
  intro x y hx0 hx hy0 hy
  rw [cell_at_eq_getD b hb x y hx0 hx hy0 hy]
  unfold alive_at
  cases b.getD (y * 20 + x).toNat CELL_DEAD <;> rfl

theorem shift_board_of (A : Int → Int → Bool) (dx dy : Int) :
    shift (board_of A) dx dy = board_of (translate A dx dy) := by
  unfold shift
  conv_rhs => unfold board_of
  apply List.map_congr_left
  intro i _
  rw [board_of_getD A _ (by omega)]
  have e1 : ((((((((i / 20 : Nat) : Int) - dy) % 10) * 20 +
      (((i % 20 : Nat) : Int) - dx) % 20).toNat % 20 : Nat) : Int)) =
        (((i % 20 : Nat) : Int) - dx) % 20 := by omega
  have e2 : ((((((((i / 20 : Nat) : Int) - dy) % 10) * 20 +
      (((i % 20 : Nat) : Int) - dx) % 20).toNat / 20 : Nat) : Int)) =
        (((i / 20 : Nat) : Int) - dy) % 10 := by omega
  rw [e1, e2]
  rfl

theorem shift_step (A : Int → Int → Bool) (dx dy : Int) :
    generation_update (shift (board_of A) dx dy) = some (shift (board_of (life A)) dx dy) := by
  rw [shift_board_of, generation_update_board_of, shift_board_of,
    board_of_ext (life (translate A dx dy)) (translate (life A) dx dy)
      (fun _ _ => life_translate A dx dy _ _)]

theorem cell_at_shift (b : Board) (hb : b.length = 200) (dx dy x y : Int) (hx0 : 0 ≤ x)
    (hx : x < 20) (hy0 : 0 ≤ y) (hy : y < 10) :
    cell_at (shift b dx dy) x y = cell_at b ((x - dx) % 20) ((y - dy) % 10) := by
  obtain ⟨A, hA⟩ : ∃ A, b = board_of A := ⟨alive_at b, board_eq_alive_at b hb⟩
  subst hA
  rw [shift_board_of, cell_at_board_of _ x y hx0 hx hy0 hy,
    cell_at_board_of _ _ _ (by omega) (by omega) (by omega) (by omega)]
  rfl

/-- C17: for every board `b` of 200 cells and all integers `dx`, `dy`, the board
`shift(b, dx, dy)` holds at every in-range `(x, y)` the cell of `b` at
`((x - dx) mod 20, (y - dy) mod 10)`; the generation update of `b` succeeds with a
board `r`, and the generation update of `shift(b, dx, dy)` succeeds with
`shift(r, dx, dy)`. -/
theorem generation_update_commutes_with_shift (b : Board) (hb : b.length = 200)
    (dx dy : Int) :
    (∀ x y : Int, 0 ≤ x → x < 20 → 0 ≤ y → y < 10 →
        cell_at (shift b dx dy) x y = cell_at b ((x - dx) % 20) ((y - dy) % 10)) ∧
      ∃ r, generation_update b = some r ∧
        generation_update (shift b dx dy) = some (shift r dx dy) := by
  refine ⟨fun x y hx0 hx hy0 hy => cell_at_shift b hb dx dy x y hx0 hx hy0 hy, ?_⟩
  obtain ⟨A, hA⟩ : ∃ A, b = board_of A := ⟨alive_at b, board_eq_alive_at b hb⟩
  subst hA
  exact ⟨board_of (life A), generation_update_board_of A, shift_step A dx dy⟩

/-- Witness of C17: the glider board of `main` moved by `(7, -3)`. -/
theorem generation_update_commutes_with_shift_witness :
    (board_with (glider_cells 2 2)).length = 200 ∧
      ((∀ x y : Int, 0 ≤ x → x < 20 → 0 ≤ y → y < 10 →
          cell_at (shift (board_with (glider_cells 2 2)) 7 (-3)) x y =
            cell_at (board_with (glider_cells 2 2)) ((x - 7) % 20) ((y - -3) % 10)) ∧
        ∃ r, generation_update (board_with (glider_cells 2 2)) = some r ∧
          generation_update (shift (board_with (glider_cells 2 2)) 7 (-3)) =
            some (shift r 7 (-3))) :=
  ⟨board_of_length _, generation_update_commutes_with_shift _ (board_of_length _) 7 (-3)⟩

end GameOfLife
